import Mathlib

/-!
LOSC curvature: integral transformer, constructor gating and grid-refined
blend.

A shallow embedding of `src/losc/src/curvature.cpp` and
`src/losc/src/curvature_v2.cpp`.

* Dense matrices are tables of coefficients together with their declared
  shape.  Scalars are an arbitrary linearly ordered field, so that the
  definitions run on rationals and the theorems read on the reals.
* A C++ `for (size_t k = 0; k < n; ++k)` loop is `forLoop n body`.
* A call that may throw returns an `Outcome`, which keeps the state of the
  mutable operand at the moment of the throw.
-/

namespace losc

/-! ## Data model -/

/-- Dense matrix of scalars: the declared shape and the table of coefficients.
Element access is the unchecked `operator()` of the source: the code makes no
range test when it reads or writes a cell, and the model makes none either.
An access outside the declared shape has no defined behaviour in the source;
here it reads or writes one more cell of the table. -/
structure Mat (α : Type) where
  rows : Nat
  cols : Nat
  coeff : Nat → Nat → α

/-- Dense vector of scalars (`VectorXd`): its size and its coefficients. -/
structure Vec (α : Type) where
  size : Nat
  coeff : Nat → α

/-- Counting loop `for (size_t k = 0; k < n; ++k) s = body k s`. -/
def forLoop {σ : Type} (n : Nat) (body : Nat → σ → σ) (s : σ) : σ :=
  (List.range n).foldl (fun acc k => body k acc) s

/-- Modulus of `size_t` arithmetic (64-bit). -/
def SIZE_MOD : Nat := 2 ^ 64

namespace Mat

variable {α : Type}

/-- Freshly allocated matrix `Matrix M(r, c)`; every cell the code reads from
such a matrix is written first, the initial content is taken as zero. -/
def zero [Zero α] (r c : Nat) : Mat α := ⟨r, c, fun _ _ => 0⟩

/-- Assignment to one cell, `M(r, c) = v`. -/
def set (M : Mat α) (r c : Nat) (v : α) : Mat α :=
  { M with coeff := fun r' c' => if r' = r ∧ c' = c then v else M.coeff r' c' }

/-- Transposed view, `M.transpose()`. -/
def transpose (M : Mat α) : Mat α := ⟨M.cols, M.rows, fun i j => M.coeff j i⟩

/-- Matrix product `A * B`, contracted over the columns of `A`. -/
def mul [Semiring α] (A B : Mat α) : Mat α :=
  ⟨A.rows, B.cols, fun i j => ∑ k ∈ Finset.range A.cols, A.coeff i k * B.coeff k j⟩

/-- Sub-matrix view `M.block(r0, c0, nr, nc)`. -/
def block (M : Mat α) (r0 c0 nr nc : Nat) : Mat α :=
  ⟨nr, nc, fun i j => M.coeff (r0 + i) (c0 + j)⟩

/-- Dot product of a row with a column, `A.row(i).dot(B.col(j))`. -/
def row_dot_col [Semiring α] (A : Mat α) (i : Nat) (B : Mat α) (j : Nat) : α :=
  ∑ k ∈ Finset.range A.cols, A.coeff i k * B.coeff k j

end Mat

/-- Modelled from the spec: `mtx_match_dimension(M, r, c)` of the missing
`eigen_helper.h`, true when `M.rows() = r` and `M.cols() = c`. -/
def mtx_match_dimension {α : Type} (M : Mat α) (r c : Nat) : Bool :=
  decide (M.rows = r) && decide (M.cols = c)

/-- Modelled from the spec: `to_symmetric("L")` / `mtx_to_symmetric(M, "L")` of
the missing matrix helpers, which keeps the lower triangle and mirrors it to
the upper triangle. -/
def mtx_to_symmetric_L {α : Type} (M : Mat α) : Mat α :=
  { M with coeff := fun i j =>
      if i < j ∧ i < M.rows ∧ j < M.cols then M.coeff j i else M.coeff i j }

/-- Exceptions of `exception.h`.  A `DimensionError` is built either from a
matrix with its expected shape and a message, or from a message alone; `shape`
holds (actual rows, actual cols, expected rows, expected cols) in the first
case. -/
inductive LoscException where
  | DimensionError (shape : Option (Nat × Nat × Nat × Nat)) (msg : String)
  deriving DecidableEq, Repr

/-- Result of a call that mutates a state `σ`: it returns, or it throws and
leaves the state as it was at the throw. -/
inductive Outcome (σ : Type) where
  | returned (s : σ)
  | raised (e : LoscException) (s : σ)

namespace Outcome

/-- State left behind by the call, whichever way it ended. -/
def state {σ : Type} : Outcome σ → σ
  | returned s => s
  | raised _ s => s

/-- Whether the call threw a `DimensionError`. -/
def isDimensionError {σ : Type} : Outcome σ → Bool
  | returned _ => false
  | raised (LoscException.DimensionError _ _) _ => true

end Outcome

/-! ## `utils::convert_df_pmn2pii_blockwise` (curvature.cpp, lines 52-98) -/

/-- The four operands of `convert_df_pmn2pii_blockwise`; only `df_pii` is
passed by mutable reference. -/
structure Operands (α : Type) where
  p_index : List Nat
  df_pmn_block : Mat α
  C_lo : Mat α
  df_pii : Mat α

section convert

variable {α : Type} [LinearOrderedField α]

/-- Lines 78-84: the packed row `pi` of `df_pmn_block` written into the lower
triangle of a fresh `nbasis x nbasis` matrix.  Here `m < nbasis` and the dense
`nbasis x nbasis` block has been allocated, so `m * (m + 1) / 2 + n` is below
the `size_t` modulus and is computed without wrap. -/
def unpack_lower (df_pmn_block : Mat α) (pi nbasis : Nat) : Mat α :=
  forLoop nbasis (fun m A =>
    forLoop (m + 1) (fun n A =>
      let mn := m * (m + 1) / 2 + n
      A.set m n (df_pmn_block.coeff pi mn)) A) (Mat.zero nbasis nbasis)

/-- Line 81: the column `m * (m + 1) / 2 + n` of the packed row that holds the
pair `(m, n)`, `n <= m`. -/
def packed_index (m n : Nat) : Nat := m * (m + 1) / 2 + n

/-- The columns of the packed row read at line 82 by the loops of lines 79-84,
in the order of the reads. -/
def unpack_reads (nbasis : Nat) : List Nat :=
  (List.range nbasis).flatMap (fun m =>
    (List.range (m + 1)).map (fun n => packed_index m n))

/-- Lines 75-96: one iteration of the loop over `pi`. -/
def convert_body (s : Operands α) (pi : Nat) (df_pii : Mat α) : Mat α :=
  let nbasis := s.C_lo.rows
  let nlo := s.C_lo.cols
  let p := s.p_index.getD pi 0
  let df_pmn_p0_mn := mtx_to_symmetric_L (unpack_lower s.df_pmn_block pi nbasis)
  let df_pmn_p0_in := Mat.mul s.C_lo.transpose df_pmn_p0_mn
  forLoop nlo (fun i d => d.set p i (Mat.row_dot_col df_pmn_p0_in i s.C_lo i)) df_pii

/-- Value assigned to `df_pii(p, i)` at line 95 in iteration `pi`:
`df_pmn_p0_in.row(i).dot(C_lo.col(i))`. -/
def written_value (s : Operands α) (pi i : Nat) : α :=
  Mat.row_dot_col
    (Mat.mul s.C_lo.transpose (mtx_to_symmetric_L (unpack_lower s.df_pmn_block pi s.C_lo.rows)))
    i s.C_lo i

/-- Lines 74-97 stopped after `upto` iterations of the loop over `pi`. -/
def convert_loop (s : Operands α) (upto : Nat) : Mat α :=
  forLoop upto (convert_body s) s.df_pii

/-- Line 66: the column count the code expects, `nbasis * (nbasis + 1) / 2`
evaluated in `size_t`. -/
def expected_cols (nbasis : Nat) : Nat := nbasis * (nbasis + 1) % SIZE_MOD / 2

/-- The function `utils::convert_df_pmn2pii_blockwise`. -/
def convert_df_pmn2pii_blockwise (s : Operands α) : Outcome (Operands α) :=
  let nfitbasis := s.df_pii.rows
  let nbasis := s.C_lo.rows
  let nlo := s.C_lo.cols
  if s.df_pmn_block.cols ≠ expected_cols nbasis then
    Outcome.raised (LoscException.DimensionError none "Wrong dimension of df_pmn_block.") s
  else if s.df_pii.rows ≠ nfitbasis ∧ s.df_pii.cols ≠ nlo then
    Outcome.raised (LoscException.DimensionError none "Wrong dimension of df_pii.") s
  else if s.p_index.length ≠ s.df_pmn_block.rows then
    Outcome.raised (LoscException.DimensionError none
      "number of rows in matrix df_pii dose not match with p index.") s
  else
    Outcome.returned { s with df_pii := convert_loop s s.p_index.length }

/-- Assignment `M(r, c) = v` through the column-major buffer of `M`: the
element at offset `r + c * rows`, which is the cell
`((r + c * rows) % rows, (r + c * rows) / rows)` when the offset lies inside the
buffer. -/
def Mat.set_stored (M : Mat α) (r c : Nat) (v : α) : Mat α :=
  let offset := r + c * M.rows
  if offset < M.rows * M.cols then M.set (offset % M.rows) (offset / M.rows) v else M

/-- Lines 75-96 with the write of line 95 addressed through the buffer. -/
def convert_body_stored (s : Operands α) (pi : Nat) (df_pii : Mat α) : Mat α :=
  let nbasis := s.C_lo.rows
  let nlo := s.C_lo.cols
  let p := s.p_index.getD pi 0
  let df_pmn_p0_mn := mtx_to_symmetric_L (unpack_lower s.df_pmn_block pi nbasis)
  let df_pmn_p0_in := Mat.mul s.C_lo.transpose df_pmn_p0_mn
  forLoop nlo (fun i d => d.set_stored p i (Mat.row_dot_col df_pmn_p0_in i s.C_lo i)) df_pii

/-- Lines 74-97 with the writes addressed through the buffer. -/
def convert_loop_stored (s : Operands α) (upto : Nat) : Mat α :=
  forLoop upto (convert_body_stored s) s.df_pii

/-- The function `utils::convert_df_pmn2pii_blockwise` with the writes of line
95 addressed through the buffer of `df_pii`. -/
def convert_df_pmn2pii_blockwise_stored (s : Operands α) : Outcome (Operands α) :=
  let nfitbasis := s.df_pii.rows
  let nbasis := s.C_lo.rows
  let nlo := s.C_lo.cols
  if s.df_pmn_block.cols ≠ expected_cols nbasis then
    Outcome.raised (LoscException.DimensionError none "Wrong dimension of df_pmn_block.") s
  else if s.df_pii.rows ≠ nfitbasis ∧ s.df_pii.cols ≠ nlo then
    Outcome.raised (LoscException.DimensionError none "Wrong dimension of df_pii.") s
  else if s.p_index.length ≠ s.df_pmn_block.rows then
    Outcome.raised (LoscException.DimensionError none
      "number of rows in matrix df_pii dose not match with p index.") s
  else
    Outcome.returned { s with df_pii := convert_loop_stored s s.p_index.length }

/-! ### Concrete operands -/

/-- Two packed rows over two basis functions and two orbitals, written to the
rows 2 and 0 of an output matrix of three rows; row 1 is not named. -/
def frame_operands : Operands α :=
  { p_index := [2, 0]
    df_pmn_block := ⟨2, 3, fun r c =>
      if r = 0 then (if c = 0 then 7 else if c = 1 then 3 else 5) else (c : α) + 1⟩
    C_lo := ⟨2, 2, fun r c => if r = 0 then 1 else if c = 0 then 2 else 3⟩
    df_pii := ⟨3, 2, fun r c => (r : α) + 10 * (c : α) + 1⟩ }

/-- One packed row over one basis function and one orbital, with the index 2
against a zero output matrix of two rows and two columns. -/
def out_of_range_operands : Operands α :=
  { p_index := [2]
    df_pmn_block := ⟨1, 1, fun _ _ => 5⟩
    C_lo := ⟨1, 1, fun _ _ => 1⟩
    df_pii := Mat.zero 2 2 }


/-- Two packed rows over two basis functions and two orbitals, the rows given
in the order 1, 0. -/
def sample_operands : Operands α :=
  { p_index := [1, 0]
    df_pmn_block := ⟨2, 3, fun r c =>
      if r = 0 then (if c = 0 then 7 else if c = 1 then 3 else 5) else (c : α) + 1⟩
    C_lo := ⟨2, 2, fun r c => if r = 0 then 1 else if c = 0 then 2 else 3⟩
    df_pii := Mat.zero 2 2 }

/-- One packed row over one basis function and one orbital, with an output
matrix of two columns. -/
def wide_output_operands : Operands α :=
  { p_index := [0]
    df_pmn_block := ⟨1, 1, fun _ _ => 1⟩
    C_lo := ⟨1, 1, fun _ _ => 1⟩
    df_pii := Mat.zero 1 2 }

/-- A block of one row and two columns against one basis function, which
needs one column. -/
def malformed_operands : Operands α :=
  { p_index := [0]
    df_pmn_block := ⟨1, 2, fun _ _ => 1⟩
    C_lo := ⟨1, 1, fun _ _ => 1⟩
    df_pii := Mat.zero 1 1 }

end convert


/-! ## `CurvatureBase::CurvatureBase` (curvature.cpp, lines 13-44) -/

/-- Members of `CurvatureBase`.  The descriptor `DFAInfo` is declared outside
the sources at hand and is never inspected here: its type is the parameter
`δ`. -/
structure CurvatureBase (δ α : Type) where
  npts_ : Nat
  nlo_ : Nat
  nbasis_ : Nat
  nfitbasis_ : Nat
  dfa_info_ : δ
  C_lo_ : Mat α
  df_pii_ : Mat α
  df_Vpq_inverse_ : Mat α
  grid_basis_value_ : Mat α
  grid_weight_ : Vec α

section constructor

variable {δ α : Type}

/-- The exception `DimensionError(A, expected_row, expected_col, msg)`. -/
def dimension_error (A : Mat α) (expected_row expected_col : Nat) (msg : String) :
    LoscException :=
  LoscException.DimensionError (some (A.rows, A.cols, expected_row, expected_col)) msg

/-- The constructor `CurvatureBase::CurvatureBase`: the member initialisers of
lines 17-20, then the five shape tests of lines 22-43 in their order. -/
def CurvatureBase.new (dfa_info : δ) (C_lo df_pii df_Vpq_inverse grid_basis_value : Mat α)
    (grid_weight : Vec α) : Except LoscException (CurvatureBase δ α) :=
  let self : CurvatureBase δ α :=
    { npts_ := grid_weight.size
      nlo_ := C_lo.cols
      nbasis_ := C_lo.rows
      nfitbasis_ := df_pii.rows
      dfa_info_ := dfa_info
      C_lo_ := C_lo
      df_pii_ := df_pii
      df_Vpq_inverse_ := df_Vpq_inverse
      grid_basis_value_ := grid_basis_value
      grid_weight_ := grid_weight }
  if !mtx_match_dimension self.C_lo_ self.nlo_ self.nbasis_ then
    Except.error (dimension_error self.C_lo_ self.nlo_ self.nbasis_
      "wrong dimension for LO's coefficient matrix.")
  else if !mtx_match_dimension self.df_pii_ self.nfitbasis_ self.nlo_ then
    Except.error (dimension_error self.df_pii_ self.nfitbasis_ self.nlo_
      "wrong dimension for density fitting three-body integral matrix <p|ii>.")
  else if !mtx_match_dimension self.df_Vpq_inverse_ self.nfitbasis_ self.nfitbasis_ then
    Except.error (dimension_error self.df_Vpq_inverse_ self.nfitbasis_ self.nfitbasis_
      "wrong dimension for density fitting Vpq inverse matrix.")
  else if !mtx_match_dimension self.grid_basis_value_ self.npts_ self.nbasis_ then
    Except.error (dimension_error self.grid_basis_value_ self.npts_ self.nbasis_
      "wrong dimension for grid value of AO basis.")
  else if self.grid_weight_.size ≠ self.npts_ then
    Except.error (LoscException.DimensionError
      (some (self.grid_weight_.size, 1, self.npts_, 1)) "wrong dimension for grid weights.")
  else
    Except.ok self

/-- A matrix of the given shape filled with one value. -/
def Mat.const (r c : Nat) (v : α) : Mat α := ⟨r, c, fun _ _ => v⟩

end constructor

/-! ## `CurvatureV2::kappa` (curvature_v2.cpp, lines 12-86) -/

/-- The class `CurvatureV2`: the base members and the scale parameter `zeta_`. -/
structure CurvatureV2 (δ α : Type) extends CurvatureBase δ α where
  zeta_ : α

/-- The values fixed by lines 20-26: the block size, the number of blocks and
the size of the remainder block. -/
structure Blocking where
  block_size : Nat
  nBLK : Nat
  res : Nat
  deriving DecidableEq, Repr

/-- Lines 20-26.  Both divisions are `size_t` divisions; a zero divisor
(`nlo_ = 0`, or a block size of zero) has no defined result and gives `none`.
The constants are far below the `size_t` modulus, nothing wraps. -/
def blocking (npts nlo : Nat) : Option Blocking :=
  if nlo = 0 then none
  else
    let block_size := 1000 * 1000 * 1000 / 8 / nlo
    if block_size = 0 then none
    else
      let nBLK := npts / block_size
      let res := npts % block_size
      some ⟨block_size, if res ≠ 0 then nBLK + 1 else nBLK, res⟩

/-- Lines 32-34: the number of grid points of block `n` (used for `n < nBLK`
only, where `nBLK - 1` does not wrap). -/
def block_length (b : Blocking) (n : Nat) : Nat :=
  if n = b.nBLK - 1 ∧ b.res ≠ 0 then b.res else b.block_size

/-- Lines 20-21 alone: `1000ULL * 1000ULL * 1000ULL / sizeof(double) / nlo_`,
with `none` for the zero divisor `nlo_ = 0`. -/
def kappa_block_size (nlo : Nat) : Option Nat :=
  if nlo = 0 then none else some (1000 * 1000 * 1000 / 8 / nlo)

/-- Lines 22-26 alone, for a block size that is not zero: the number of
blocks and the remainder for `npts` grid points. -/
def grid_blocks (npts block_size : Nat) : Blocking :=
  let nBLK := npts / block_size
  let res := npts % block_size
  ⟨block_size, if res ≠ 0 then nBLK + 1 else nBLK, res⟩

/-- The cells of `S_lo` that block `n` updates at line 52, in the order of
the loops of lines 46-54: one update of `(i, j)` for every point of the block
and every `j <= i < nlo`. -/
def block_updates (nlo : Nat) (b : Blocking) (n : Nat) : List (Nat × Nat) :=
  (List.range (block_length b n)).flatMap (fun _ =>
    (List.range nlo).flatMap (fun i =>
      (List.range (i + 1)).map (fun j => (i, j))))

section kappa

variable {δ α : Type} [LinearOrderedField α]

/-- Value of orbital `i` at grid point `g`: the entry `(g, i)` of the product of
the `npts_ x nbasis_` grid values with `C_lo_`. -/
def grid_lo (self : CurvatureBase δ α) (g i : Nat) : α :=
  ∑ k ∈ Finset.range self.nbasis_, self.grid_basis_value_.coeff g k * self.C_lo_.coeff k i

/-- Unblocked reference for the overlap: the sum over all grid points of
`grid_weight[g] * |phi(g,i) * phi(g,j)|`. -/
def overlap_reference (self : CurvatureBase δ α) (i j : Nat) : α :=
  ∑ g ∈ Finset.range self.npts_,
    self.grid_weight_.coeff g * |grid_lo self g i * grid_lo self g j|

/-- Lines 32-55: the contribution of grid block `n` added to `S_lo`. -/
def accumulate_block (self : CurvatureBase δ α) (b : Blocking) (n : Nat) (S_lo : Mat α) :
    Mat α :=
  let size := block_length b n
  let grid_lo_block :=
    Mat.mul (self.grid_basis_value_.block (n * b.block_size) 0 size self.nbasis_) self.C_lo_
  forLoop size (fun ip S =>
    let wt_value := self.grid_weight_.coeff (n * b.block_size + ip)
    forLoop self.nlo_ (fun i S =>
      forLoop (i + 1) (fun j S =>
        let pi := grid_lo_block.coeff ip i
        let pj := grid_lo_block.coeff ip j
        S.set i j (S.coeff i j + wt_value * |pi * pj|)) S) S) S_lo

/-- Lines 15-57: `S_lo` zeroed, the blocks accumulated in the order `order`
(the loop of line 31 in ascending order, or the order in which a parallel
build happens to take the blocks), then mirrored. -/
def overlap_S_lo (self : CurvatureBase δ α) (b : Blocking) (order : List Nat) : Mat α :=
  mtx_to_symmetric_L
    (order.foldl (fun S n => accumulate_block self b n S) (Mat.zero self.nlo_ self.nlo_))

/-- Lines 71-83: the blend written into the lower triangle of `kappa2`, then
mirrored. -/
def blend_kappa2 (erf erfc sqrt : α → α) (nlo : Nat) (zeta : α) (S_lo kappa1 : Mat α) :
    Mat α :=
  mtx_to_symmetric_L
    (forLoop nlo (fun i kappa2 =>
      let K1_ii := kappa1.coeff i i
      forLoop i (fun j kappa2 =>
        let S_ij := S_lo.coeff i j
        let K1_ij := kappa1.coeff i j
        let K1_jj := kappa1.coeff j j
        let f := zeta * S_ij
        kappa2.set i j (erf f * sqrt |K1_ii * K1_jj| + erfc f * K1_ij))
        (kappa2.set i i K1_ii)) (Mat.zero nlo nlo))

/-- The method `CurvatureV2::kappa` with the grid blocks taken in the order
`schedule nBLK`.  The library functions `erf`, `erfc`, `sqrt` and the result
`kappa1` of the base engine `CurvatureV1` (built at lines 60-62 from the same
members; its code is outside the sources at hand) are parameters. -/
def CurvatureV2.kappa_scheduled (erf erfc sqrt : α → α)
    (CurvatureV1_kappa : CurvatureBase δ α → Mat α) (schedule : Nat → List Nat)
    (self : CurvatureV2 δ α) : Option (Mat α) :=
  match blocking self.npts_ self.nlo_ with
  | none => none
  | some b =>
    let S_lo := overlap_S_lo self.toCurvatureBase b (schedule b.nBLK)
    let kappa1 := CurvatureV1_kappa self.toCurvatureBase
    some (blend_kappa2 erf erfc sqrt self.nlo_ self.zeta_ S_lo kappa1)

/-- The method `CurvatureV2::kappa` as the serial loop of line 31 runs it. -/
def CurvatureV2.kappa (erf erfc sqrt : α → α)
    (CurvatureV1_kappa : CurvatureBase δ α → Mat α) (self : CurvatureV2 δ α) :
    Option (Mat α) :=
  CurvatureV2.kappa_scheduled erf erfc sqrt CurvatureV1_kappa List.range self

/-- An engine over two basis functions and two orbitals whose grid has one
point more than a block holds, so that the grid falls into a full block and
a remainder block of one point. -/
def sample_engine : CurvatureV2 Unit α :=
  { npts_ := 62500001
    nlo_ := 2
    nbasis_ := 2
    nfitbasis_ := 1
    dfa_info_ := ()
    C_lo_ := ⟨2, 2, fun r c => if r = c then 1 else 2⟩
    df_pii_ := Mat.zero 1 2
    df_Vpq_inverse_ := Mat.zero 1 1
    grid_basis_value_ := ⟨62500001, 2, fun g k => (g : α) - 2 * (k : α)⟩
    grid_weight_ := ⟨62500001, fun g => (g : α) + 1⟩
    zeta_ := 2 }

end kappa

/-! ## Double-precision arithmetic

The definitions above compute in an exact ordered field.  The source computes
in `double`: every product and sum is rounded to the nearest binary64 value,
ties to even.  The definitions below give that rounding on the rationals (a
binary64 value is a rational), for results within the finite range of
binary64 (overflow to infinity is not modelled), and repeat lines 15-57 and
71-83 over an arithmetic that is a parameter, so that the same loops can be
run exactly or with rounding. -/

/-- Round to the nearest integer, ties to the even one. -/
def round_half_even (x : ℚ) : ℤ :=
  let n := ⌊x⌋
  let r := x - n
  if r < 1 / 2 then n
  else if 1 / 2 < r then n + 1
  else if n % 2 = 0 then n else n + 1

/-- Number of binary digits of a natural number below `2 ^ fuel`. -/
def bit_length : Nat → Nat → Nat
  | 0, _ => 0
  | fuel + 1, n => if n = 0 then 0 else bit_length fuel (n / 2) + 1

/-- The exponent `e` with `2 ^ e <= x < 2 ^ (e + 1)`, for `x > 0` with numerator
and denominator below `2 ^ 4096`. -/
def binary_exponent (x : ℚ) : ℤ :=
  let e0 : ℤ := (bit_length 4096 x.num.natAbs : ℤ) - (bit_length 4096 x.den : ℤ)
  if x < (2 : ℚ) ^ e0 then e0 - 1 else e0

/-- Rounding to binary64, nearest with ties to even: 53 significant binary
digits, the spacing of the subnormal numbers below `2 ^ (-1022)`. -/
def round_binary64 (x : ℚ) : ℚ :=
  if x = 0 then 0
  else
    let e := max (binary_exponent |x|) (-1022)
    let ulp : ℚ := (2 : ℚ) ^ (e - 52)
    (if x < 0 then -1 else 1) * (round_half_even (|x| / ulp) : ℚ) * ulp

/-- The operations the loops of `CurvatureV2::kappa` apply to scalars. -/
structure Arithmetic (α : Type) where
  zero : α
  add : α → α → α
  mul : α → α → α
  abs : α → α

/-- Exact arithmetic of an ordered field. -/
def exact_arithmetic {α : Type} [LinearOrderedField α] : Arithmetic α :=
  { zero := 0, add := fun x y => x + y, mul := fun x y => x * y, abs := fun x => |x| }

/-- Arithmetic of `double`: each sum and product rounded to binary64 (no fused
multiply-add); `std::abs` is exact. -/
def binary64_arithmetic : Arithmetic ℚ :=
  { zero := 0
    add := fun x y => round_binary64 (x + y)
    mul := fun x y => round_binary64 (x * y)
    abs := fun x => |x| }

section kappa_in_arithmetic

variable {δ α : Type}

/-- Lines 71-83 in the arithmetic `ar`. -/
def blend_kappa2_in (ar : Arithmetic α) (erf erfc sqrt : α → α) (nlo : Nat) (zeta : α)
    (S_lo kappa1 : Mat α) : Mat α :=
  mtx_to_symmetric_L
    (forLoop nlo (fun i kappa2 =>
      let K1_ii := kappa1.coeff i i
      forLoop i (fun j kappa2 =>
        let S_ij := S_lo.coeff i j
        let K1_ij := kappa1.coeff i j
        let K1_jj := kappa1.coeff j j
        let f := ar.mul zeta S_ij
        kappa2.set i j
          (ar.add (ar.mul (erf f) (sqrt (ar.abs (ar.mul K1_ii K1_jj)))) (ar.mul (erfc f) K1_ij)))
        (kappa2.set i i K1_ii)) ⟨nlo, nlo, fun _ _ => ar.zero⟩)

end kappa_in_arithmetic

/-! ### Concrete double-precision inputs -/

/-- The double `0x1.87fe43f262e9dp-4`, a value of `zeta`. -/
def zeta_sample : ℚ := 6896017729793693 / 72057594037927936

/-- Value `0x1.b8f8678d1fecdp-4` of `std::erf` at `0x1.87fe43f262e9dp-4`. -/
def erf_sample (_ : ℚ) : ℚ := 7757632086605517 / 72057594037927936

/-- Value `0x1.c8e0f30e5c026p-1` of `std::erfc` at `0x1.87fe43f262e9dp-4`. -/
def erfc_sample (_ : ℚ) : ℚ := 4018747621957651 / 4503599627370496

/-- The square root on the one argument it is applied to: `std::sqrt(49.0)` is
`7.0`. -/
def sqrt_sample (x : ℚ) : ℚ := if x = 49 then 7 else 0

set_option linter.unusedSectionVars false

section lemmas

variable {α : Type}

theorem forLoop_zero {σ : Type} (body : Nat → σ → σ) (s : σ) : forLoop 0 body s = s := rfl

theorem forLoop_succ {σ : Type} (n : Nat) (body : Nat → σ → σ) (s : σ) :
    forLoop (n + 1) body s = body n (forLoop n body s) := by
  simp [forLoop, List.range_succ, List.foldl_append]

theorem Mat.coeff_set (M : Mat α) (r c : Nat) (v : α) (r' c' : Nat) :
    (M.set r c v).coeff r' c' = if r' = r ∧ c' = c then v else M.coeff r' c' := rfl

theorem Mat.rows_set (M : Mat α) (r c : Nat) (v : α) : (M.set r c v).rows = M.rows := rfl

theorem Mat.cols_set (M : Mat α) (r c : Nat) (v : α) : (M.set r c v).cols = M.cols := rfl

/-- A loop that assigns `f c` to the cells `(r, c)`, `c < k`, of one row. -/
theorem forLoop_set_row (r : Nat) (f : Nat → α) (k : Nat) (M : Mat α) (r' c' : Nat) :
    (forLoop k (fun c A => A.set r c (f c)) M).coeff r' c'
      = if r' = r ∧ c' < k then f c' else M.coeff r' c' := by
  induction k with
  | zero => simp [forLoop_zero]
  | succ k ih =>
    rw [forLoop_succ, Mat.coeff_set, ih]
    by_cases h1 : r' = r
    · by_cases h2 : c' = k
      · simp [h1, h2]
      · by_cases h3 : c' < k
        · have : c' < k + 1 := by omega
          simp [h1, h2, h3, this]
        · have : ¬ c' < k + 1 := by omega
          simp [h1, h2, h3, this]
    · simp [h1]

theorem forLoop_set_row_rows (r : Nat) (f : Nat → α) (k : Nat) (M : Mat α) :
    (forLoop k (fun c A => A.set r c (f c)) M).rows = M.rows := by
  induction k with
  | zero => rfl
  | succ k ih => rw [forLoop_succ, Mat.rows_set, ih]

theorem forLoop_set_row_cols (r : Nat) (f : Nat → α) (k : Nat) (M : Mat α) :
    (forLoop k (fun c A => A.set r c (f c)) M).cols = M.cols := by
  induction k with
  | zero => rfl
  | succ k ih => rw [forLoop_succ, Mat.cols_set, ih]

/-- A nested loop that fills the lower triangle, rows `m < k`. -/
theorem forLoop_set_lower (g : Nat → Nat → α) (k : Nat) (M : Mat α) (r' c' : Nat) :
    (forLoop k (fun m A => forLoop (m + 1) (fun n A => A.set m n (g m n)) A) M).coeff r' c'
      = if r' < k ∧ c' ≤ r' then g r' c' else M.coeff r' c' := by
  induction k with
  | zero => simp [forLoop_zero]
  | succ k ih =>
    rw [forLoop_succ, forLoop_set_row k (g k), ih]
    by_cases h1 : r' = k
    · subst h1
      by_cases h2 : c' ≤ r'
      · have : c' < r' + 1 := by omega
        simp [h2, this]
      · have : ¬ c' < r' + 1 := by omega
        simp [h2, this]
    · by_cases h3 : r' < k
      · have : r' < k + 1 := by omega
        simp [h1, h3, this]
      · have : ¬ r' < k + 1 := by omega
        simp [h1, h3, this]

theorem forLoop_set_lower_rows (g : Nat → Nat → α) (k : Nat) (M : Mat α) :
    (forLoop k (fun m A => forLoop (m + 1) (fun n A => A.set m n (g m n)) A) M).rows
      = M.rows := by
  induction k with
  | zero => rfl
  | succ k ih => rw [forLoop_succ, forLoop_set_row_rows, ih]

theorem forLoop_set_lower_cols (g : Nat → Nat → α) (k : Nat) (M : Mat α) :
    (forLoop k (fun m A => forLoop (m + 1) (fun n A => A.set m n (g m n)) A) M).cols
      = M.cols := by
  induction k with
  | zero => rfl
  | succ k ih => rw [forLoop_succ, forLoop_set_row_cols, ih]


end lemmas

section convert_lemmas

variable {α : Type} [LinearOrderedField α]

theorem unpack_lower_rows (B : Mat α) (pi nbasis : Nat) :
    (unpack_lower B pi nbasis).rows = nbasis :=
  forLoop_set_lower_rows (fun m n => B.coeff pi (m * (m + 1) / 2 + n)) nbasis _

theorem unpack_lower_cols (B : Mat α) (pi nbasis : Nat) :
    (unpack_lower B pi nbasis).cols = nbasis :=
  forLoop_set_lower_cols (fun m n => B.coeff pi (m * (m + 1) / 2 + n)) nbasis _

theorem unpack_lower_coeff (B : Mat α) (pi nbasis m n : Nat) (hm : m < nbasis) (hn : n ≤ m) :
    (unpack_lower B pi nbasis).coeff m n = B.coeff pi (m * (m + 1) / 2 + n) := by
  have h := forLoop_set_lower (fun m n => B.coeff pi (m * (m + 1) / 2 + n)) nbasis
    (Mat.zero nbasis nbasis) m n
  simp only [hm, hn, and_self, if_true] at h
  exact h

/-- The dense symmetric block built at lines 78-85 from the packed row. -/
theorem unpack_symmetric_coeff (B : Mat α) (pi nbasis m n : Nat)
    (hm : m < nbasis) (hn : n < nbasis) :
    (mtx_to_symmetric_L (unpack_lower B pi nbasis)).coeff m n
      = B.coeff pi (max m n * (max m n + 1) / 2 + min m n) := by
  simp only [mtx_to_symmetric_L, unpack_lower_rows, unpack_lower_cols]
  by_cases h : m < n
  · have h1 : max m n = n := max_eq_right (le_of_lt h)
    have h2 : min m n = m := min_eq_left (le_of_lt h)
    rw [if_pos ⟨h, hm, hn⟩, unpack_lower_coeff B pi nbasis n m hn (le_of_lt h), h1, h2]
  · have hle : n ≤ m := Nat.le_of_not_lt h
    have h1 : max m n = m := max_eq_left hle
    have h2 : min m n = n := min_eq_right hle
    rw [if_neg (fun hh => h hh.1), unpack_lower_coeff B pi nbasis m n hm hle, h1, h2]

/-- The value of line 95 is the quadratic form of column `i` of `C_lo` in the
symmetric matrix unpacked from row `pi`. -/
theorem written_value_eq (s : Operands α) (pi i : Nat) :
    written_value s pi i
      = ∑ m ∈ Finset.range s.C_lo.rows, ∑ n ∈ Finset.range s.C_lo.rows,
          s.C_lo.coeff m i
            * s.df_pmn_block.coeff pi (max m n * (max m n + 1) / 2 + min m n)
            * s.C_lo.coeff n i := by
  have hc : (mtx_to_symmetric_L (unpack_lower s.df_pmn_block pi s.C_lo.rows)).cols
      = s.C_lo.rows := unpack_lower_cols s.df_pmn_block pi s.C_lo.rows
  simp only [written_value, Mat.row_dot_col, Mat.mul, Mat.transpose, hc]
  simp only [Finset.sum_mul]
  rw [Finset.sum_comm]
  refine Finset.sum_congr rfl (fun m hm => Finset.sum_congr rfl (fun n hn => ?_))
  rw [unpack_symmetric_coeff s.df_pmn_block pi s.C_lo.rows m n
    (Finset.mem_range.mp hm) (Finset.mem_range.mp hn)]

theorem convert_body_coeff (s : Operands α) (pi : Nat) (d : Mat α) (r c : Nat) :
    (convert_body s pi d).coeff r c
      = if r = s.p_index.getD pi 0 ∧ c < s.C_lo.cols then written_value s pi c
        else d.coeff r c :=
  forLoop_set_row (s.p_index.getD pi 0) (written_value s pi) s.C_lo.cols d r c

theorem convert_body_rows (s : Operands α) (pi : Nat) (d : Mat α) :
    (convert_body s pi d).rows = d.rows :=
  forLoop_set_row_rows (s.p_index.getD pi 0) (written_value s pi) s.C_lo.cols d

theorem convert_body_cols (s : Operands α) (pi : Nat) (d : Mat α) :
    (convert_body s pi d).cols = d.cols :=
  forLoop_set_row_cols (s.p_index.getD pi 0) (written_value s pi) s.C_lo.cols d

theorem convert_loop_succ (s : Operands α) (k : Nat) :
    convert_loop s (k + 1) = convert_body s k (convert_loop s k) :=
  forLoop_succ k (convert_body s) s.df_pii

theorem convert_loop_rows (s : Operands α) (k : Nat) :
    (convert_loop s k).rows = s.df_pii.rows := by
  induction k with
  | zero => rfl
  | succ k ih => rw [convert_loop_succ, convert_body_rows, ih]

theorem convert_loop_cols (s : Operands α) (k : Nat) :
    (convert_loop s k).cols = s.df_pii.cols := by
  induction k with
  | zero => rfl
  | succ k ih => rw [convert_loop_succ, convert_body_cols, ih]

/-- Cells outside the written rows and columns keep their value. -/
theorem convert_loop_frame (s : Operands α) (k r c : Nat)
    (h : (∀ pi, pi < k → s.p_index.getD pi 0 ≠ r) ∨ s.C_lo.cols ≤ c) :
    (convert_loop s k).coeff r c = s.df_pii.coeff r c := by
  induction k with
  | zero => rfl
  | succ k ih =>
    rw [convert_loop_succ, convert_body_coeff]
    have hne : ¬ (r = s.p_index.getD k 0 ∧ c < s.C_lo.cols) := by
      rintro ⟨h1, h2⟩
      rcases h with h | h
      · exact h k (Nat.lt_succ_self k) h1.symm
      · omega
    rw [if_neg hne]
    apply ih
    rcases h with h | h
    · exact Or.inl (fun pi hpi => h pi (Nat.lt_succ_of_lt hpi))
    · exact Or.inr h

/-- The cell written in iteration `pi` keeps that value as long as no later
iteration names the same row. -/
theorem convert_loop_written (s : Operands α) (k pi c : Nat) (hpi : pi < k)
    (hc : c < s.C_lo.cols)
    (hlater : ∀ q, pi < q → q < k → s.p_index.getD q 0 ≠ s.p_index.getD pi 0) :
    (convert_loop s k).coeff (s.p_index.getD pi 0) c = written_value s pi c := by
  induction k with
  | zero => omega
  | succ k ih =>
    rw [convert_loop_succ, convert_body_coeff]
    by_cases hk : pi = k
    · subst hk
      rw [if_pos ⟨rfl, hc⟩]
    · have hlt : pi < k := by omega
      have hne : ¬ (s.p_index.getD pi 0 = s.p_index.getD k 0 ∧ c < s.C_lo.cols) :=
        fun hh => hlater k hlt (Nat.lt_succ_self k) hh.1.symm
      rw [if_neg hne]
      exact ih hlt (fun q h1 h2 => hlater q h1 (Nat.lt_succ_of_lt h2))

end convert_lemmas

section convert_claims

variable {α : Type} [LinearOrderedField α]

theorem convert_returns (s : Operands α)
    (hcols : s.df_pmn_block.cols = expected_cols s.C_lo.rows)
    (hrows : s.p_index.length = s.df_pmn_block.rows) :
    convert_df_pmn2pii_blockwise s
      = Outcome.returned { s with df_pii := convert_loop s s.p_index.length } := by
  simp [convert_df_pmn2pii_blockwise, hcols, hrows]

end convert_claims

section convert_claims_real

/-- C7: whenever `df_pmn_block.cols()` differs from the `nbasis*(nbasis+1)/2`
of line 66 or `p_index.size()` differs from `df_pmn_block.rows()`, the call
throws a `DimensionError` and leaves all operands, `df_pii` included, exactly
as they were; the `size_t` value of line 66 is the exact
`nbasis*(nbasis+1)/2` for every `nbasis < 2^32`. -/
theorem convert_df_pmn2pii_blockwise_rejects_malformed (s : Operands ℝ)
    (h : s.df_pmn_block.cols ≠ expected_cols s.C_lo.rows
      ∨ s.p_index.length ≠ s.df_pmn_block.rows) :
    (∃ shape msg, convert_df_pmn2pii_blockwise s
        = Outcome.raised (LoscException.DimensionError shape msg) s) ∧
    (convert_df_pmn2pii_blockwise s).state.df_pii = s.df_pii ∧
    (s.C_lo.rows < 2 ^ 32 →
      expected_cols s.C_lo.rows = s.C_lo.rows * (s.C_lo.rows + 1) / 2) := by
  have key : ∃ shape msg, convert_df_pmn2pii_blockwise s
      = Outcome.raised (LoscException.DimensionError shape msg) s := by
    unfold convert_df_pmn2pii_blockwise
    simp only
    by_cases h1 : s.df_pmn_block.cols ≠ expected_cols s.C_lo.rows
    · rw [if_pos h1]
      exact ⟨_, _, rfl⟩
    · rw [if_neg h1]
      have h2 : ¬ (s.df_pii.rows ≠ s.df_pii.rows ∧ s.df_pii.cols ≠ s.C_lo.cols) :=
        fun hh => hh.1 rfl
      rw [if_neg h2]
      have h3 : s.p_index.length ≠ s.df_pmn_block.rows := by
        rcases h with h | h
        · exact absurd h h1
        · exact h
      rw [if_pos h3]
      exact ⟨_, _, rfl⟩
  refine ⟨key, ?_, ?_⟩
  · obtain ⟨shape, msg, hk⟩ := key
    rw [hk]
    rfl
  · intro hlt
    unfold expected_cols SIZE_MOD
    have hb : s.C_lo.rows * (s.C_lo.rows + 1) < 2 ^ 64 := by
      have h1 : s.C_lo.rows + 1 ≤ 2 ^ 32 := hlt
      have h2 : s.C_lo.rows ≤ 2 ^ 32 := le_of_lt hlt
      calc s.C_lo.rows * (s.C_lo.rows + 1)
          < 2 ^ 32 * (s.C_lo.rows + 1) := Nat.mul_lt_mul_of_pos_right hlt (by omega)
        _ ≤ 2 ^ 32 * 2 ^ 32 := Nat.mul_le_mul_left _ h1
        _ = 2 ^ 64 := by norm_num
    rw [Nat.mod_eq_of_lt hb]

/-- Witness for C7: a block of two columns where one basis function needs one. -/
theorem convert_df_pmn2pii_blockwise_rejects_malformed_witness :
    ((malformed_operands : Operands ℝ).df_pmn_block.cols
        ≠ expected_cols (malformed_operands : Operands ℝ).C_lo.rows
      ∨ (malformed_operands : Operands ℝ).p_index.length
        ≠ (malformed_operands : Operands ℝ).df_pmn_block.rows) ∧
    (∃ shape msg, convert_df_pmn2pii_blockwise (malformed_operands : Operands ℝ)
        = Outcome.raised (LoscException.DimensionError shape msg) malformed_operands) :=
  ⟨Or.inl (by decide),
    (convert_df_pmn2pii_blockwise_rejects_malformed malformed_operands
      (Or.inl (by decide))).1⟩

/-- C8: at an output matrix of two columns against `nlo = 1` the test of line 68
does not fire: the call returns normally, without a `DimensionError`, after
writing `df_pii(0, 0)`. -/
theorem convert_df_pmn2pii_blockwise_accepts_wide_output :
    (wide_output_operands : Operands ℝ).df_pii.cols
        ≠ (wide_output_operands : Operands ℝ).C_lo.cols ∧
    (convert_df_pmn2pii_blockwise (wide_output_operands : Operands ℝ)).isDimensionError
        = false ∧
    (∃ s', convert_df_pmn2pii_blockwise (wide_output_operands : Operands ℝ)
        = Outcome.returned s' ∧ s'.df_pii.coeff 0 0 = 1) := by
  have hret := convert_returns (wide_output_operands : Operands ℝ) (by decide) (by decide)
  refine ⟨by decide, ?_, _, hret, ?_⟩
  · rw [hret]
    rfl
  · have h := convert_loop_written (wide_output_operands : Operands ℝ) 1 0 0 (by decide)
      (by decide) (fun q h1 h2 => by omega)
    have hv : written_value (wide_output_operands : Operands ℝ) 0 0 = 1 := by
      rw [written_value_eq]
      simp [wide_output_operands]
    rw [hv] at h
    exact h

end convert_claims_real

section split_lemmas

theorem Mat.ext_of_coeff {α : Type} {A B : Mat α} (hr : A.rows = B.rows) (hc : A.cols = B.cols)
    (h : ∀ r c, A.coeff r c = B.coeff r c) : A = B := by
  cases A
  cases B
  simp only [Mat.mk.injEq]
  exact ⟨hr, hc, funext (fun r => funext (fun c => h r c))⟩

variable {α : Type} [LinearOrderedField α]

end split_lemmas

section split_claim

end split_claim

section accumulate_lemmas

variable {α : Type} [LinearOrderedField α]

/-- A loop that adds `f c` to the cells `(r, c)`, `c < k`, of one row. -/
theorem forLoop_add_row (r : Nat) (f : Nat → α) (k : Nat) (M : Mat α) (r' c' : Nat) :
    (forLoop k (fun c A => A.set r c (A.coeff r c + f c)) M).coeff r' c'
      = if r' = r ∧ c' < k then M.coeff r' c' + f c' else M.coeff r' c' := by
  induction k generalizing r' c' with
  | zero => simp [forLoop_zero]
  | succ k ih =>
    rw [forLoop_succ, Mat.coeff_set, ih, ih]
    by_cases h1 : r' = r
    · by_cases h2 : c' = k
      · subst h1 h2
        simp
      · by_cases h3 : c' < k
        · have : c' < k + 1 := by omega
          simp [h1, h2, h3, this]
        · have : ¬ c' < k + 1 := by omega
          simp [h1, h2, h3, this]
    · simp [h1]

/-- A nested loop that adds `v i j` to every cell `(i, j)`, `j ≤ i < k`. -/
theorem forLoop_add_lower (v : Nat → Nat → α) (k : Nat) (M : Mat α) (r' c' : Nat) :
    (forLoop k (fun i S =>
        forLoop (i + 1) (fun j S => S.set i j (S.coeff i j + v i j)) S) M).coeff r' c'
      = if r' < k ∧ c' ≤ r' then M.coeff r' c' + v r' c' else M.coeff r' c' := by
  induction k generalizing r' c' with
  | zero => simp [forLoop_zero]
  | succ k ih =>
    rw [forLoop_succ, forLoop_add_row k (v k), ih]
    by_cases h1 : r' = k
    · subst h1
      by_cases h2 : c' ≤ r'
      · have : c' < r' + 1 := by omega
        simp [h2, this]
      · have : ¬ c' < r' + 1 := by omega
        simp [h2, this]
    · by_cases h3 : r' < k
      · have : r' < k + 1 := by omega
        simp [h1, h3, this]
      · have : ¬ r' < k + 1 := by omega
        simp [h1, h3, this]

/-- The loop over the points of a block adds the sum of their terms. -/
theorem forLoop_add_points (v : Nat → Nat → Nat → α) (nlo size : Nat) (M : Mat α)
    (r' c' : Nat) :
    (forLoop size (fun ip S =>
        forLoop nlo (fun i S =>
          forLoop (i + 1) (fun j S => S.set i j (S.coeff i j + v ip i j)) S) S) M).coeff r' c'
      = if r' < nlo ∧ c' ≤ r' then M.coeff r' c' + ∑ ip ∈ Finset.range size, v ip r' c'
        else M.coeff r' c' := by
  induction size generalizing r' c' with
  | zero => simp [forLoop_zero]
  | succ k ih =>
    rw [forLoop_succ, forLoop_add_lower (v k) nlo, ih]
    by_cases h : r' < nlo ∧ c' ≤ r'
    · simp only [if_pos h, Finset.sum_range_succ, add_assoc]
    · simp only [if_neg h]

/-- Term that grid point `g` adds to the cell `(i, j)` of the overlap. -/
theorem accumulate_block_coeff {δ : Type} (self : CurvatureBase δ α) (b : Blocking)
    (n : Nat) (S : Mat α) (r' c' : Nat) :
    (accumulate_block self b n S).coeff r' c'
      = if r' < self.nlo_ ∧ c' ≤ r' then
          S.coeff r' c' + ∑ ip ∈ Finset.range (block_length b n),
            self.grid_weight_.coeff (n * b.block_size + ip)
              * |grid_lo self (n * b.block_size + ip) r' * grid_lo self (n * b.block_size + ip) c'|
        else S.coeff r' c' := by
  have h := forLoop_add_points (fun ip i j =>
      self.grid_weight_.coeff (n * b.block_size + ip)
        * |grid_lo self (n * b.block_size + ip) i * grid_lo self (n * b.block_size + ip) j|)
    self.nlo_ (block_length b n) S r' c'
  simp only [grid_lo] at h ⊢
  simp only [accumulate_block, Mat.mul, Mat.block, Nat.zero_add]
  exact h

theorem accumulate_blocks_coeff {δ : Type} (self : CurvatureBase δ α) (b : Blocking)
    (order : List Nat) (S : Mat α) (r' c' : Nat) :
    (order.foldl (fun S n => accumulate_block self b n S) S).coeff r' c'
      = if r' < self.nlo_ ∧ c' ≤ r' then
          S.coeff r' c' + (order.map (fun n => ∑ ip ∈ Finset.range (block_length b n),
            self.grid_weight_.coeff (n * b.block_size + ip)
              * |grid_lo self (n * b.block_size + ip) r'
                  * grid_lo self (n * b.block_size + ip) c'|)).sum
        else S.coeff r' c' := by
  induction order generalizing S with
  | nil => simp
  | cons n rest ih =>
    rw [List.foldl_cons, ih, accumulate_block_coeff]
    by_cases h : r' < self.nlo_ ∧ c' ≤ r'
    · rw [if_pos h, if_pos h, if_pos h, List.map_cons, List.sum_cons, add_assoc]
    · rw [if_neg h, if_neg h, if_neg h]

/-- A property kept by every iteration is kept by the loop. -/
theorem forLoop_invariant {σ : Type} (P : σ → Prop) (n : Nat) (body : Nat → σ → σ)
    (hbody : ∀ k s, P s → P (body k s)) (s : σ) (hs : P s) : P (forLoop n body s) := by
  induction n with
  | zero => exact hs
  | succ k ih =>
    rw [forLoop_succ]
    exact hbody k _ ih

theorem accumulate_block_shape {δ : Type} (self : CurvatureBase δ α) (b : Blocking)
    (n : Nat) (S : Mat α) :
    (accumulate_block self b n S).rows = S.rows ∧ (accumulate_block self b n S).cols = S.cols := by
  unfold accumulate_block
  refine forLoop_invariant (fun A : Mat α => A.rows = S.rows ∧ A.cols = S.cols) _ _ ?_ S
    ⟨rfl, rfl⟩
  intro ip A hA
  refine forLoop_invariant (fun A : Mat α => A.rows = S.rows ∧ A.cols = S.cols) _ _ ?_ A hA
  intro i A hA
  refine forLoop_invariant (fun A : Mat α => A.rows = S.rows ∧ A.cols = S.cols) _ _ ?_ A hA
  intro j A hA
  exact hA

theorem accumulate_blocks_shape {δ : Type} (self : CurvatureBase δ α) (b : Blocking)
    (order : List Nat) (S : Mat α) :
    (order.foldl (fun S n => accumulate_block self b n S) S).rows = S.rows ∧
    (order.foldl (fun S n => accumulate_block self b n S) S).cols = S.cols := by
  induction order generalizing S with
  | nil => exact ⟨rfl, rfl⟩
  | cons n rest ih =>
    rw [List.foldl_cons]
    obtain ⟨h1, h2⟩ := ih (accumulate_block self b n S)
    obtain ⟨h3, h4⟩ := accumulate_block_shape self b n S
    exact ⟨h1.trans h3, h2.trans h4⟩

end accumulate_lemmas

section blocking_lemmas

theorem blocking_some (npts nlo : Nat) (h1 : 1 ≤ nlo) (h2 : nlo ≤ 125000000) :
    ∃ b, blocking npts nlo = some b ∧ 1 ≤ b.block_size ∧
      b.block_size = 1000 * 1000 * 1000 / 8 / nlo ∧
      b.res = npts % b.block_size ∧
      b.nBLK = (if npts % b.block_size ≠ 0 then npts / b.block_size + 1
        else npts / b.block_size) := by
  have hnlo : nlo ≠ 0 := by omega
  have hbs : 1 ≤ 1000 * 1000 * 1000 / 8 / nlo := by
    apply Nat.div_pos
    · norm_num
      exact h2
    · omega
  have hbs0 : ¬ (1000 * 1000 * 1000 / 8 / nlo = 0) := by omega
  refine ⟨⟨1000 * 1000 * 1000 / 8 / nlo,
    if npts % (1000 * 1000 * 1000 / 8 / nlo) ≠ 0 then npts / (1000 * 1000 * 1000 / 8 / nlo) + 1
    else npts / (1000 * 1000 * 1000 / 8 / nlo),
    npts % (1000 * 1000 * 1000 / 8 / nlo)⟩, ?_, hbs, rfl, rfl, rfl⟩
  unfold blocking
  rw [if_neg hnlo]
  simp only
  rw [if_neg hbs0]

theorem list_range_map_sum {α : Type} [AddCommMonoid α] (f : Nat → α) (n : Nat) :
    ((List.range n).map f).sum = ∑ k ∈ Finset.range n, f k := by
  induction n with
  | zero => simp
  | succ n ih =>
    rw [List.range_succ, List.map_append, List.sum_append, ih, Finset.sum_range_succ]
    simp

theorem sum_full_blocks {α : Type} [AddCommMonoid α] (F : Nat → α) (bs q : Nat) :
    ∑ n ∈ Finset.range q, ∑ ip ∈ Finset.range bs, F (n * bs + ip)
      = ∑ g ∈ Finset.range (q * bs), F g := by
  induction q with
  | zero => simp
  | succ q ih =>
    rw [Finset.sum_range_succ, ih, Nat.succ_mul, Finset.sum_range_add]

/-- The blocks of lines 31-34 cover the grid points `0 .. npts - 1` once each:
a sum over the blocks and their points is the sum over all grid points. -/
theorem sum_over_blocks {α : Type} [AddCommMonoid α] (F : Nat → α) (npts nlo : Nat)
    (b : Blocking) (hb : blocking npts nlo = some b) :
    ∑ n ∈ Finset.range b.nBLK, ∑ ip ∈ Finset.range (block_length b n),
        F (n * b.block_size + ip)
      = ∑ g ∈ Finset.range npts, F g := by
  unfold blocking at hb
  by_cases hnlo : nlo = 0
  · rw [if_pos hnlo] at hb
    exact absurd hb (by simp)
  rw [if_neg hnlo] at hb
  simp only at hb
  by_cases hbs0 : 1000 * 1000 * 1000 / 8 / nlo = 0
  · rw [if_pos hbs0] at hb
    exact absurd hb (by simp)
  rw [if_neg hbs0] at hb
  have hb1 := (Option.some.inj hb).symm
  subst hb1
  generalize 1000 * 1000 * 1000 / 8 / nlo = bs
  have hdm : npts / bs * bs + npts % bs = npts := Nat.div_add_mod' npts bs
  by_cases hres : npts % bs = 0
  · have hlen : ∀ n, block_length ⟨bs, if npts % bs ≠ 0 then npts / bs + 1 else npts / bs,
        npts % bs⟩ n = bs := by
      intro n
      simp [block_length, hres]
    simp only [hlen]
    simp only [hres, ne_eq, not_true_eq_false, if_false]
    rw [sum_full_blocks]
    rw [hres, Nat.add_zero] at hdm
    rw [hdm]
  · have hnblk : (if npts % bs ≠ 0 then npts / bs + 1 else npts / bs) = npts / bs + 1 :=
      if_pos hres
    simp only [hnblk]
    rw [Finset.sum_range_succ]
    have hlen1 : ∀ n ∈ Finset.range (npts / bs),
        ∑ ip ∈ Finset.range (block_length ⟨bs, npts / bs + 1, npts % bs⟩ n), F (n * bs + ip)
          = ∑ ip ∈ Finset.range bs, F (n * bs + ip) := by
      intro n hn
      have hne : n ≠ npts / bs := ne_of_lt (Finset.mem_range.mp hn)
      have : block_length ⟨bs, npts / bs + 1, npts % bs⟩ n = bs := by
        simp [block_length, hne]
      rw [this]
    have hlen2 : block_length ⟨bs, npts / bs + 1, npts % bs⟩ (npts / bs) = npts % bs := by
      simp [block_length, hres]
    rw [Finset.sum_congr rfl hlen1, hlen2, sum_full_blocks]
    conv_rhs => rw [← hdm]
    rw [Finset.sum_range_add]

end blocking_lemmas

section overlap_claims

variable {δ : Type}

theorem overlap_S_lo_lower {α : Type} [LinearOrderedField α] (self : CurvatureBase δ α)
    (b : Blocking) (hb : blocking self.npts_ self.nlo_ = some b)
    (order : List Nat) (hperm : order.Perm (List.range b.nBLK)) (i j : Nat)
    (hi : i < self.nlo_) (hj : j ≤ i) :
    (order.foldl (fun S n => accumulate_block self b n S)
        (Mat.zero self.nlo_ self.nlo_)).coeff i j
      = overlap_reference self i j := by
  rw [accumulate_blocks_coeff, if_pos ⟨hi, hj⟩]
  rw [List.Perm.sum_eq (List.Perm.map _ hperm)]
  rw [list_range_map_sum, sum_over_blocks (fun g =>
    self.grid_weight_.coeff g * |grid_lo self g i * grid_lo self g j|)
    self.npts_ self.nlo_ b hb]
  simp [Mat.zero, overlap_reference]

theorem overlap_S_lo_coeff {α : Type} [LinearOrderedField α] (self : CurvatureBase δ α)
    (b : Blocking) (hb : blocking self.npts_ self.nlo_ = some b)
    (order : List Nat) (hperm : order.Perm (List.range b.nBLK)) (i j : Nat)
    (hi : i < self.nlo_) (hj : j < self.nlo_) :
    (overlap_S_lo self b order).coeff i j = overlap_reference self i j := by
  obtain ⟨hr, hc⟩ := accumulate_blocks_shape self b order (Mat.zero self.nlo_ self.nlo_)
  have hr1 : (order.foldl (fun S n => accumulate_block self b n S)
      (Mat.zero self.nlo_ self.nlo_)).rows = self.nlo_ := hr
  have hc1 : (order.foldl (fun S n => accumulate_block self b n S)
      (Mat.zero self.nlo_ self.nlo_)).cols = self.nlo_ := hc
  simp only [overlap_S_lo, mtx_to_symmetric_L, hr1, hc1]
  by_cases h : i < j
  · rw [if_pos ⟨h, hi, hj⟩, overlap_S_lo_lower self b hb order hperm j i hj (le_of_lt h)]
    simp only [overlap_reference]
    refine Finset.sum_congr rfl (fun g _ => ?_)
    rw [mul_comm (grid_lo self g j)]
  · rw [if_neg (fun hh => h hh.1)]
    exact overlap_S_lo_lower self b hb order hperm i j hi (Nat.le_of_not_lt h)

/-- Two orders that process every block once accumulate the same matrix. -/
theorem overlap_S_lo_perm {α : Type} [LinearOrderedField α] (self : CurvatureBase δ α)
    (b : Blocking) (order order2 : List Nat) (hperm : order.Perm order2) :
    overlap_S_lo self b order = overlap_S_lo self b order2 := by
  unfold overlap_S_lo
  congr 1
  obtain ⟨hr, hc⟩ := accumulate_blocks_shape self b order (Mat.zero self.nlo_ self.nlo_)
  obtain ⟨hr2, hc2⟩ := accumulate_blocks_shape self b order2 (Mat.zero self.nlo_ self.nlo_)
  apply Mat.ext_of_coeff (hr.trans hr2.symm) (hc.trans hc2.symm)
  intro r c
  rw [accumulate_blocks_coeff, accumulate_blocks_coeff,
    List.Perm.sum_eq (List.Perm.map _ hperm)]

/-- The result of `kappa` is the same for every schedule that takes each block
once. -/
theorem kappa_scheduled_eq_kappa {α : Type} [LinearOrderedField α] (erf erfc sqrt : α → α)
    (CurvatureV1_kappa : CurvatureBase δ α → Mat α) (schedule : Nat → List Nat)
    (hsched : ∀ n, (schedule n).Perm (List.range n)) (self : CurvatureV2 δ α) :
    CurvatureV2.kappa_scheduled erf erfc sqrt CurvatureV1_kappa schedule self
      = CurvatureV2.kappa erf erfc sqrt CurvatureV1_kappa self := by
  unfold CurvatureV2.kappa CurvatureV2.kappa_scheduled
  cases hb : blocking self.npts_ self.nlo_ with
  | none => rfl
  | some b =>
    simp only
    rw [overlap_S_lo_perm self.toCurvatureBase b (schedule b.nBLK) (List.range b.nBLK)
      (hsched b.nBLK)]

/-- C3: for `1 <= nlo <= 125000000` the block sizes of `CurvatureV2::kappa` are
defined, and for every order in which the grid blocks are processed the
accumulated and mirrored overlap is the unblocked sum
`S_lo(i,j) = sum over g < npts of grid_weight[g] * |phi(g,i) * phi(g,j)|` for all
`i, j < nlo`, with `phi(g,i) = sum over k < nbasis of
grid_basis_value(g,k) * C_lo(k,i)`, the entry `(g,i)` of
`grid_basis_value * C_lo` when `grid_basis_value` has `nbasis` columns; and
the matrix returned by `kappa` is the same under every schedule that takes
each block once as under the serial loop. -/
theorem CurvatureV2_overlap_blockwise_eq_reference (self : CurvatureV2 δ ℝ)
    (h1 : 1 ≤ self.nlo_) (h2 : self.nlo_ ≤ 125000000) :
    (∃ b, blocking self.npts_ self.nlo_ = some b ∧
      ∀ order : List Nat, order.Perm (List.range b.nBLK) →
        ∀ i j, i < self.nlo_ → j < self.nlo_ →
          (overlap_S_lo self.toCurvatureBase b order).coeff i j
            = ∑ g ∈ Finset.range self.npts_,
                self.grid_weight_.coeff g
                  * |grid_lo self.toCurvatureBase g i * grid_lo self.toCurvatureBase g j|) ∧
    (self.grid_basis_value_.cols = self.nbasis_ →
      ∀ g i, grid_lo self.toCurvatureBase g i
        = (Mat.mul self.grid_basis_value_ self.C_lo_).coeff g i) ∧
    (∀ (erf erfc sqrt : ℝ → ℝ) (CurvatureV1_kappa : CurvatureBase δ ℝ → Mat ℝ)
        (schedule : Nat → List Nat), (∀ n, (schedule n).Perm (List.range n)) →
      CurvatureV2.kappa_scheduled erf erfc sqrt CurvatureV1_kappa schedule self
        = CurvatureV2.kappa erf erfc sqrt CurvatureV1_kappa self) := by
  obtain ⟨b, hb, _⟩ := blocking_some self.npts_ self.nlo_ h1 h2
  refine ⟨⟨b, hb, ?_⟩, ?_, ?_⟩
  · intro order hperm i j hi hj
    exact overlap_S_lo_coeff self.toCurvatureBase b hb order hperm i j hi hj
  · intro hcols g i
    simp only [grid_lo, Mat.mul, hcols]
  · intro erf erfc sqrt CurvatureV1_kappa schedule hsched
    exact kappa_scheduled_eq_kappa erf erfc sqrt CurvatureV1_kappa schedule hsched self

/-- Witness for C3: a grid of one full block and a remainder block of one
point. -/
theorem CurvatureV2_overlap_blockwise_eq_reference_witness :
    (1 ≤ (sample_engine : CurvatureV2 Unit ℝ).nlo_ ∧
      (sample_engine : CurvatureV2 Unit ℝ).nlo_ ≤ 125000000) ∧
    blocking (sample_engine : CurvatureV2 Unit ℝ).npts_
        (sample_engine : CurvatureV2 Unit ℝ).nlo_ = some ⟨62500000, 2, 1⟩ ∧
    ∃ b, blocking (sample_engine : CurvatureV2 Unit ℝ).npts_
        (sample_engine : CurvatureV2 Unit ℝ).nlo_ = some b ∧
      ∀ order : List Nat, order.Perm (List.range b.nBLK) →
        ∀ i j, i < (sample_engine : CurvatureV2 Unit ℝ).nlo_ →
          j < (sample_engine : CurvatureV2 Unit ℝ).nlo_ →
          (overlap_S_lo (sample_engine : CurvatureV2 Unit ℝ).toCurvatureBase b order).coeff i j
            = ∑ g ∈ Finset.range (sample_engine : CurvatureV2 Unit ℝ).npts_,
                (sample_engine : CurvatureV2 Unit ℝ).grid_weight_.coeff g
                  * |grid_lo (sample_engine : CurvatureV2 Unit ℝ).toCurvatureBase g i
                      * grid_lo (sample_engine : CurvatureV2 Unit ℝ).toCurvatureBase g j| :=
  ⟨⟨by decide, by decide⟩, by decide,
    (CurvatureV2_overlap_blockwise_eq_reference sample_engine (by decide) (by decide)).1⟩

end overlap_claims

section blend_claims

variable {δ : Type}

/-- The loop of lines 72-82: the diagonal cell of each row, then the cells left
of it. -/
theorem forLoop_set_diag_lower {α : Type} (g : Nat → Nat → α) (h : Nat → α) (k : Nat)
    (M : Mat α) (r c : Nat) :
    (forLoop k (fun i K => forLoop i (fun j K => K.set i j (g i j)) (K.set i i (h i))) M).coeff
        r c
      = if r < k ∧ c < r then g r c else if r < k ∧ c = r then h r else M.coeff r c := by
  induction k with
  | zero => simp [forLoop_zero]
  | succ k ih =>
    rw [forLoop_succ, forLoop_set_row k (g k), Mat.coeff_set, ih]
    by_cases h1 : r = k
    · subst h1
      by_cases h2 : c < r
      · simp [h2]
      · by_cases h3 : c = r
        · simp [h3]
        · simp [h2, h3]
    · by_cases h3 : r < k
      · have : r < k + 1 := by omega
        simp [h1, h3, this]
      · have : ¬ r < k + 1 := by omega
        simp [h1, h3, this]

theorem blend_kappa2_shape {α : Type} [LinearOrderedField α] (erf erfc sqrt : α → α)
    (nlo : Nat) (zeta : α) (S_lo kappa1 : Mat α) :
    (blend_kappa2 erf erfc sqrt nlo zeta S_lo kappa1).rows = nlo ∧
    (blend_kappa2 erf erfc sqrt nlo zeta S_lo kappa1).cols = nlo := by
  unfold blend_kappa2 mtx_to_symmetric_L
  simp only
  refine forLoop_invariant (fun A : Mat α => A.rows = nlo ∧ A.cols = nlo) _ _ ?_
    (Mat.zero nlo nlo) ⟨rfl, rfl⟩
  intro i A hA
  refine forLoop_invariant (fun A : Mat α => A.rows = nlo ∧ A.cols = nlo) _ _ ?_ _ hA
  intro j A hA
  exact hA

/-- Entries of the matrix built at lines 71-83, below, on and above the
diagonal. -/
theorem blend_kappa2_coeff {α : Type} [LinearOrderedField α] (erf erfc sqrt : α → α)
    (nlo : Nat) (zeta : α) (S_lo kappa1 : Mat α) (i j : Nat) (hi : i < nlo) (hj : j < nlo) :
    (blend_kappa2 erf erfc sqrt nlo zeta S_lo kappa1).coeff i j
      = if j < i then
          erf (zeta * S_lo.coeff i j) * sqrt |kappa1.coeff i i * kappa1.coeff j j|
            + erfc (zeta * S_lo.coeff i j) * kappa1.coeff i j
        else if j = i then kappa1.coeff i i
        else
          erf (zeta * S_lo.coeff j i) * sqrt |kappa1.coeff j j * kappa1.coeff i i|
            + erfc (zeta * S_lo.coeff j i) * kappa1.coeff j i := by
  obtain ⟨hr, hc⟩ := blend_kappa2_shape erf erfc sqrt nlo zeta S_lo kappa1
  have hlow := forLoop_set_diag_lower
    (fun i j => erf (zeta * S_lo.coeff i j) * sqrt |kappa1.coeff i i * kappa1.coeff j j|
      + erfc (zeta * S_lo.coeff i j) * kappa1.coeff i j)
    (fun i => kappa1.coeff i i) nlo (Mat.zero nlo nlo)
  unfold blend_kappa2 mtx_to_symmetric_L at hr hc ⊢
  simp only at hr hc ⊢
  rw [hr, hc]
  by_cases h1 : i < j
  · rw [if_pos ⟨h1, hi, hj⟩, hlow j i]
    have h2 : ¬ j < i := by omega
    have h3 : ¬ j = i := by omega
    rw [if_pos ⟨hj, h1⟩, if_neg h2, if_neg h3]
  · rw [if_neg (fun hh => h1 hh.1), hlow i j]
    by_cases h2 : j < i
    · rw [if_pos ⟨hi, h2⟩, if_pos h2]
    · have h3 : j = i := by omega
      have h4 : ¬ (i < nlo ∧ j < i) := fun hh => h2 hh.2
      rw [if_neg h4, if_pos ⟨hi, h3⟩, if_neg h2, if_pos h3]

/-- C2: `CurvatureV2::kappa` returns a matrix whenever its block sizes are
defined (`1 <= nlo <= 125000000`), and every matrix it returns has, for every
pair `j < i < nlo`, `kappa2(i,j) = erf(f) * sqrt(|kappa1(i,i) * kappa1(j,j)|) +
erfc(f) * kappa1(i,j)` with `f = zeta * S_lo(i,j)`, `S_lo` the accumulated overlap
and `kappa1` the result of the base engine on the same members; the entry
`(j,i)` holds the same value. -/
theorem CurvatureV2_kappa_blend (erf erfc sqrt : ℝ → ℝ)
    (CurvatureV1_kappa : CurvatureBase δ ℝ → Mat ℝ) (schedule : Nat → List Nat)
    (self : CurvatureV2 δ ℝ) :
    (1 ≤ self.nlo_ → self.nlo_ ≤ 125000000 →
      ∃ K, CurvatureV2.kappa_scheduled erf erfc sqrt CurvatureV1_kappa schedule self = some K) ∧
    (∀ b K, blocking self.npts_ self.nlo_ = some b →
      CurvatureV2.kappa_scheduled erf erfc sqrt CurvatureV1_kappa schedule self = some K →
      ∀ i j, j < i → i < self.nlo_ →
        K.coeff i j
          = erf (self.zeta_ * (overlap_S_lo self.toCurvatureBase b (schedule b.nBLK)).coeff i j)
              * sqrt |(CurvatureV1_kappa self.toCurvatureBase).coeff i i
                  * (CurvatureV1_kappa self.toCurvatureBase).coeff j j|
            + erfc (self.zeta_
                  * (overlap_S_lo self.toCurvatureBase b (schedule b.nBLK)).coeff i j)
              * (CurvatureV1_kappa self.toCurvatureBase).coeff i j
        ∧ K.coeff j i = K.coeff i j) := by
  constructor
  · intro h1 h2
    obtain ⟨b, hb, _⟩ := blocking_some self.npts_ self.nlo_ h1 h2
    unfold CurvatureV2.kappa_scheduled
    rw [hb]
    exact ⟨_, rfl⟩
  · intro b K hb hK i j hji hi
    unfold CurvatureV2.kappa_scheduled at hK
    rw [hb] at hK
    simp only [Option.some.injEq] at hK
    subst hK
    have hj : j < self.nlo_ := by omega
    have h1 := blend_kappa2_coeff erf erfc sqrt self.nlo_ self.zeta_
      (overlap_S_lo self.toCurvatureBase b (schedule b.nBLK))
      (CurvatureV1_kappa self.toCurvatureBase) i j hi hj
    have h2 := blend_kappa2_coeff erf erfc sqrt self.nlo_ self.zeta_
      (overlap_S_lo self.toCurvatureBase b (schedule b.nBLK))
      (CurvatureV1_kappa self.toCurvatureBase) j i hj hi
    rw [if_pos hji] at h1
    have h3 : ¬ i < j := by omega
    have h4 : ¬ i = j := by omega
    rw [if_neg h3, if_neg h4] at h2
    exact ⟨h1, by rw [h2, h1]⟩

/-- Witness for C2: the sample engine returns a matrix under the serial
schedule, and its entries `(1,0)` and `(0,1)` hold the blend. -/
theorem CurvatureV2_kappa_blend_witness :
    (1 ≤ (sample_engine : CurvatureV2 Unit ℝ).nlo_ ∧
      (sample_engine : CurvatureV2 Unit ℝ).nlo_ ≤ 125000000) ∧
    ∃ K, CurvatureV2.kappa_scheduled (fun x => x) (fun x => 1 - x) (fun x => x)
        (fun e => e.df_pii_) List.range (sample_engine : CurvatureV2 Unit ℝ) = some K ∧
      K.coeff 1 0
        = (fun x : ℝ => x) ((sample_engine : CurvatureV2 Unit ℝ).zeta_
              * (overlap_S_lo (sample_engine : CurvatureV2 Unit ℝ).toCurvatureBase
                  ⟨62500000, 2, 1⟩ (List.range 2)).coeff 1 0)
            * (fun x : ℝ => x) |(sample_engine : CurvatureV2 Unit ℝ).df_pii_.coeff 1 1
                * (sample_engine : CurvatureV2 Unit ℝ).df_pii_.coeff 0 0|
          + (fun x : ℝ => 1 - x) ((sample_engine : CurvatureV2 Unit ℝ).zeta_
              * (overlap_S_lo (sample_engine : CurvatureV2 Unit ℝ).toCurvatureBase
                  ⟨62500000, 2, 1⟩ (List.range 2)).coeff 1 0)
            * (sample_engine : CurvatureV2 Unit ℝ).df_pii_.coeff 1 0
      ∧ K.coeff 0 1 = K.coeff 1 0 := by
  obtain ⟨K, hK⟩ := (CurvatureV2_kappa_blend (fun x => x) (fun x => 1 - x) (fun x => x)
    (fun e => e.df_pii_) List.range (sample_engine : CurvatureV2 Unit ℝ)).1
    (by decide) (by decide)
  exact ⟨⟨by decide, by decide⟩, K, hK,
    (CurvatureV2_kappa_blend (fun x => x) (fun x => 1 - x) (fun x => x)
      (fun e => e.df_pii_) List.range (sample_engine : CurvatureV2 Unit ℝ)).2
      ⟨62500000, 2, 1⟩ K (by decide) hK 1 0 (by decide) (by decide)⟩

end blend_claims

section constructor_claims

variable {δ : Type}

theorem mtx_match_dimension_iff {α : Type} (M : Mat α) (r c : Nat) :
    mtx_match_dimension M r c = true ↔ M.rows = r ∧ M.cols = c := by
  simp [mtx_match_dimension]

/-- The constructor returns an object exactly when the five tests pass. -/
theorem CurvatureBase_new_error_of_mismatch {α : Type} (dfa_info : δ)
    (C_lo df_pii df_Vpq_inverse grid_basis_value : Mat α) (grid_weight : Vec α)
    (h : ¬ (C_lo.rows = C_lo.cols ∧ C_lo.cols = C_lo.rows)
      ∨ ¬ (df_pii.rows = df_pii.rows ∧ df_pii.cols = C_lo.cols)
      ∨ ¬ (df_Vpq_inverse.rows = df_pii.rows ∧ df_Vpq_inverse.cols = df_pii.rows)
      ∨ ¬ (grid_basis_value.rows = grid_weight.size ∧ grid_basis_value.cols = C_lo.rows)) :
    ∃ shape msg, CurvatureBase.new dfa_info C_lo df_pii df_Vpq_inverse grid_basis_value
      grid_weight = Except.error (LoscException.DimensionError shape msg) := by
  unfold CurvatureBase.new
  simp only
  by_cases h1 : mtx_match_dimension C_lo C_lo.cols C_lo.rows = true
  · by_cases h2 : mtx_match_dimension df_pii df_pii.rows C_lo.cols = true
    · by_cases h3 : mtx_match_dimension df_Vpq_inverse df_pii.rows df_pii.rows = true
      · by_cases h4 : mtx_match_dimension grid_basis_value grid_weight.size C_lo.rows = true
        · exfalso
          rw [mtx_match_dimension_iff] at h1 h2 h3 h4
          rcases h with h | h | h | h
          · exact h h1
          · exact h h2
          · exact h h3
          · exact h h4
        · simp only [h1, h2, h3, h4, Bool.not_true, Bool.not_false, if_true, if_false,
            Bool.false_eq_true]
          exact ⟨_, _, rfl⟩
      · simp only [h1, h2, h3, Bool.not_true, Bool.not_false, if_true, if_false,
          Bool.false_eq_true]
        exact ⟨_, _, rfl⟩
    · simp only [h1, h2, Bool.not_true, Bool.not_false, if_true, if_false,
        Bool.false_eq_true]
      exact ⟨_, _, rfl⟩
  · simp only [h1, Bool.not_false, if_true]
    exact ⟨_, _, rfl⟩

/-- C9: with `nbasis = C_lo.rows()`, `nlo = C_lo.cols()`, `nfitbasis =
df_pii.rows()`, `npts = grid_weight.size()`, the constructor of `CurvatureBase`
throws a `DimensionError` whenever `df_pii` is not `[nfitbasis, nlo]`, or
`df_Vpq_inverse` is not `[nfitbasis, nfitbasis]`, or `grid_basis_value` is not
`[npts, nbasis]`; in particular a `C_lo` with `nbasis + 1` rows against a
`grid_basis_value` with `nbasis` columns is rejected. -/
theorem CurvatureBase_new_rejects_mismatch (dfa_info : δ)
    (C_lo df_pii df_Vpq_inverse grid_basis_value : Mat ℝ) (grid_weight : Vec ℝ) :
    ((¬ (df_pii.rows = df_pii.rows ∧ df_pii.cols = C_lo.cols)
        ∨ ¬ (df_Vpq_inverse.rows = df_pii.rows ∧ df_Vpq_inverse.cols = df_pii.rows)
        ∨ ¬ (grid_basis_value.rows = grid_weight.size ∧ grid_basis_value.cols = C_lo.rows)) →
      ∃ shape msg, CurvatureBase.new dfa_info C_lo df_pii df_Vpq_inverse grid_basis_value
        grid_weight = Except.error (LoscException.DimensionError shape msg)) ∧
    (∀ nbasis, C_lo.rows = nbasis + 1 → grid_basis_value.cols = nbasis →
      ∃ shape msg, CurvatureBase.new dfa_info C_lo df_pii df_Vpq_inverse grid_basis_value
        grid_weight = Except.error (LoscException.DimensionError shape msg)) := by
  constructor
  · intro h
    exact CurvatureBase_new_error_of_mismatch dfa_info C_lo df_pii df_Vpq_inverse
      grid_basis_value grid_weight (Or.inr h)
  · intro nbasis hC hg
    apply CurvatureBase_new_error_of_mismatch
    right
    right
    right
    intro hh
    omega

/-- Witness for C9: a `C_lo` of three rows against grid values of two columns. -/
theorem CurvatureBase_new_rejects_mismatch_witness :
    (Mat.const 3 3 (0 : ℝ)).rows = 2 + 1 ∧ (Mat.const 5 2 (0 : ℝ)).cols = 2 ∧
    ∃ shape msg, CurvatureBase.new () (Mat.const 3 3 (0 : ℝ)) (Mat.const 1 3 0)
      (Mat.const 1 1 0) (Mat.const 5 2 0) ⟨5, fun _ => 0⟩
        = Except.error (LoscException.DimensionError shape msg) :=
  ⟨rfl, rfl, (CurvatureBase_new_rejects_mismatch () (Mat.const 3 3 (0 : ℝ)) (Mat.const 1 3 0)
    (Mat.const 1 1 0) (Mat.const 5 2 0) ⟨5, fun _ => 0⟩).2 2 rfl rfl⟩

/-- C10: the bundle `C_lo [2,1]`, `df_pii [1,1]`, `df_Vpq_inverse [1,1]`,
`grid_basis_value [1,2]`, `grid_weight` of length 1 is consistently shaped
(`nbasis = 2`, `nlo = 1`, `nfitbasis = 1`, `npts = 1`), and the constructor
throws the `DimensionError` of line 23 on it: the test of line 22 compares
`C_lo` with `[nlo, nbasis]`. -/
theorem CurvatureBase_new_rejects_rectangular_C_lo :
    mtx_match_dimension (Mat.const 2 1 (0 : ℝ)) 2 1 = true ∧
    mtx_match_dimension (Mat.const 1 1 (0 : ℝ)) 1 1 = true ∧
    mtx_match_dimension (Mat.const 1 2 (0 : ℝ)) 1 2 = true ∧
    CurvatureBase.new () (Mat.const 2 1 (0 : ℝ)) (Mat.const 1 1 0) (Mat.const 1 1 0)
        (Mat.const 1 2 0) ⟨1, fun _ => 0⟩
      = Except.error (LoscException.DimensionError (some (2, 1, 1, 2))
          "wrong dimension for LO's coefficient matrix.") :=
  ⟨rfl, rfl, rfl, rfl⟩

end constructor_claims

section kappa_result_claims

variable {δ : Type}

theorem kappa_scheduled_some {α : Type} [LinearOrderedField α] (erf erfc sqrt : α → α)
    (CurvatureV1_kappa : CurvatureBase δ α → Mat α) (schedule : Nat → List Nat)
    (self : CurvatureV2 δ α) (b : Blocking) (hb : blocking self.npts_ self.nlo_ = some b) :
    CurvatureV2.kappa_scheduled erf erfc sqrt CurvatureV1_kappa schedule self
      = some (blend_kappa2 erf erfc sqrt self.nlo_ self.zeta_
          (overlap_S_lo self.toCurvatureBase b (schedule b.nBLK))
          (CurvatureV1_kappa self.toCurvatureBase)) := by
  unfold CurvatureV2.kappa_scheduled
  rw [hb]

theorem kappa_scheduled_returns {α : Type} [LinearOrderedField α] (erf erfc sqrt : α → α)
    (CurvatureV1_kappa : CurvatureBase δ α → Mat α) (schedule : Nat → List Nat)
    (self : CurvatureV2 δ α) (h1 : 1 ≤ self.nlo_) (h2 : self.nlo_ ≤ 125000000) :
    ∃ K, CurvatureV2.kappa_scheduled erf erfc sqrt CurvatureV1_kappa schedule self = some K := by
  obtain ⟨b, hb, _⟩ := blocking_some self.npts_ self.nlo_ h1 h2
  exact ⟨_, kappa_scheduled_some erf erfc sqrt CurvatureV1_kappa schedule self b hb⟩

/-- A returned matrix is the blend of the accumulated overlap with `kappa1`. -/
theorem kappa_scheduled_eq_some {α : Type} [LinearOrderedField α] (erf erfc sqrt : α → α)
    (CurvatureV1_kappa : CurvatureBase δ α → Mat α) (schedule : Nat → List Nat)
    (self : CurvatureV2 δ α) (K : Mat α)
    (hK : CurvatureV2.kappa_scheduled erf erfc sqrt CurvatureV1_kappa schedule self = some K) :
    ∃ b, blocking self.npts_ self.nlo_ = some b ∧
      K = blend_kappa2 erf erfc sqrt self.nlo_ self.zeta_
          (overlap_S_lo self.toCurvatureBase b (schedule b.nBLK))
          (CurvatureV1_kappa self.toCurvatureBase) := by
  cases hb : blocking self.npts_ self.nlo_ with
  | none =>
    unfold CurvatureV2.kappa_scheduled at hK
    rw [hb] at hK
    exact absurd hK (by simp)
  | some b =>
    rw [kappa_scheduled_some erf erfc sqrt CurvatureV1_kappa schedule self b hb] at hK
    exact ⟨b, rfl, (Option.some.inj hK).symm⟩

theorem blend_kappa2_symmetric {α : Type} [LinearOrderedField α] (erf erfc sqrt : α → α)
    (nlo : Nat) (zeta : α) (S_lo kappa1 : Mat α) (i j : Nat) (hi : i < nlo) (hj : j < nlo) :
    (blend_kappa2 erf erfc sqrt nlo zeta S_lo kappa1).coeff i j
      = (blend_kappa2 erf erfc sqrt nlo zeta S_lo kappa1).coeff j i := by
  rw [blend_kappa2_coeff erf erfc sqrt nlo zeta S_lo kappa1 i j hi hj,
    blend_kappa2_coeff erf erfc sqrt nlo zeta S_lo kappa1 j i hj hi]
  rcases Nat.lt_trichotomy i j with h | h | h
  · have h1 : ¬ j < i := by omega
    have h2 : ¬ j = i := by omega
    rw [if_neg h1, if_neg h2, if_pos h]
  · subst h
    rfl
  · have h1 : ¬ i < j := by omega
    have h2 : ¬ i = j := by omega
    rw [if_pos h, if_neg h1, if_neg h2]

theorem overlap_S_lo_symmetric {α : Type} [LinearOrderedField α] (self : CurvatureBase δ α)
    (b : Blocking) (order : List Nat) (i j : Nat) (hi : i < self.nlo_) (hj : j < self.nlo_) :
    (overlap_S_lo self b order).coeff i j = (overlap_S_lo self b order).coeff j i := by
  obtain ⟨hr, hc⟩ := accumulate_blocks_shape self b order (Mat.zero self.nlo_ self.nlo_)
  have hr1 : (order.foldl (fun S n => accumulate_block self b n S)
      (Mat.zero self.nlo_ self.nlo_)).rows = self.nlo_ := hr
  have hc1 : (order.foldl (fun S n => accumulate_block self b n S)
      (Mat.zero self.nlo_ self.nlo_)).cols = self.nlo_ := hc
  simp only [overlap_S_lo, mtx_to_symmetric_L, hr1, hc1]
  rcases Nat.lt_trichotomy i j with h | h | h
  · have h1 : ¬ j < i := by omega
    rw [if_pos ⟨h, hi, hj⟩, if_neg (fun hh => h1 hh.1)]
  · subst h
    rfl
  · have h1 : ¬ i < j := by omega
    rw [if_neg (fun hh => h1 hh.1), if_pos ⟨h, hj, hi⟩]

/-- C11: `CurvatureV2::kappa` returns a matrix whenever its block sizes are
defined (`1 <= nlo <= 125000000`); every matrix `K` it returns, for whatever
members (those accepted by the constructor among them) and whatever block
order, has `K(i,j) = K(j,i)` for all `i, j < nlo`; and the overlap after
accumulation and mirroring has `S_lo(i,j) = S_lo(j,i)` for all `i, j < nlo`. -/
theorem CurvatureV2_kappa_symmetric (erf erfc sqrt : ℝ → ℝ)
    (CurvatureV1_kappa : CurvatureBase δ ℝ → Mat ℝ) (schedule : Nat → List Nat)
    (self : CurvatureV2 δ ℝ) :
    (1 ≤ self.nlo_ → self.nlo_ ≤ 125000000 →
      ∃ K, CurvatureV2.kappa_scheduled erf erfc sqrt CurvatureV1_kappa schedule self = some K) ∧
    (∀ K, CurvatureV2.kappa_scheduled erf erfc sqrt CurvatureV1_kappa schedule self = some K →
      ∀ i j, i < self.nlo_ → j < self.nlo_ → K.coeff i j = K.coeff j i) ∧
    (∀ (b : Blocking) (order : List Nat) (i j : Nat), i < self.nlo_ → j < self.nlo_ →
      (overlap_S_lo self.toCurvatureBase b order).coeff i j
        = (overlap_S_lo self.toCurvatureBase b order).coeff j i) := by
  refine ⟨kappa_scheduled_returns erf erfc sqrt CurvatureV1_kappa schedule self, ?_, ?_⟩
  · intro K hK i j hi hj
    obtain ⟨b, _, rfl⟩ := kappa_scheduled_eq_some erf erfc sqrt CurvatureV1_kappa schedule self
      K hK
    exact blend_kappa2_symmetric erf erfc sqrt _ _ _ _ i j hi hj
  · intro b order i j hi hj
    exact overlap_S_lo_symmetric self.toCurvatureBase b order i j hi hj

/-- Witness for C11: the members of the sample engine are accepted by the
constructor, and it returns a matrix whose entries `(0,1)` and `(1,0)` agree. -/
theorem CurvatureV2_kappa_symmetric_witness :
    CurvatureBase.new () (sample_engine : CurvatureV2 Unit ℝ).C_lo_
        (sample_engine : CurvatureV2 Unit ℝ).df_pii_
        (sample_engine : CurvatureV2 Unit ℝ).df_Vpq_inverse_
        (sample_engine : CurvatureV2 Unit ℝ).grid_basis_value_
        (sample_engine : CurvatureV2 Unit ℝ).grid_weight_
      = Except.ok (sample_engine : CurvatureV2 Unit ℝ).toCurvatureBase ∧
    (1 ≤ (sample_engine : CurvatureV2 Unit ℝ).nlo_ ∧
      (sample_engine : CurvatureV2 Unit ℝ).nlo_ ≤ 125000000) ∧
    ∃ K, CurvatureV2.kappa_scheduled (fun x => x) (fun x => 1 - x) (fun x => x)
        (fun e => e.df_pii_) List.range (sample_engine : CurvatureV2 Unit ℝ) = some K ∧
      K.coeff 0 1 = K.coeff 1 0 := by
  obtain ⟨K, hK⟩ := (CurvatureV2_kappa_symmetric (fun x => x) (fun x => 1 - x) (fun x => x)
    (fun e => e.df_pii_) List.range (sample_engine : CurvatureV2 Unit ℝ)).1
    (by decide) (by decide)
  exact ⟨rfl, ⟨by decide, by decide⟩, K, hK,
    (CurvatureV2_kappa_symmetric (fun x => x) (fun x => 1 - x) (fun x => x)
      (fun e => e.df_pii_) List.range (sample_engine : CurvatureV2 Unit ℝ)).2.1 K hK 0 1
      (by decide) (by decide)⟩

/-- C12: for every `i < nlo` the matrix built at lines 71-83 has
`kappa2(i,i) = kappa1(i,i)`, for every `zeta`, every overlap matrix and every
`erf`, `erfc`, `sqrt`; so has every matrix returned by `CurvatureV2::kappa`,
for every grid and every block order, with `kappa1` the `CurvatureV1` result
on the same members. -/
theorem CurvatureV2_kappa_diagonal (erf erfc sqrt : ℝ → ℝ)
    (CurvatureV1_kappa : CurvatureBase δ ℝ → Mat ℝ) (schedule : Nat → List Nat)
    (self : CurvatureV2 δ ℝ) :
    (∀ (nlo : Nat) (zeta : ℝ) (S_lo kappa1 : Mat ℝ) (i : Nat), i < nlo →
      (blend_kappa2 erf erfc sqrt nlo zeta S_lo kappa1).coeff i i = kappa1.coeff i i) ∧
    (1 ≤ self.nlo_ → self.nlo_ ≤ 125000000 →
      ∃ K, CurvatureV2.kappa_scheduled erf erfc sqrt CurvatureV1_kappa schedule self = some K) ∧
    (∀ K, CurvatureV2.kappa_scheduled erf erfc sqrt CurvatureV1_kappa schedule self = some K →
      ∀ i, i < self.nlo_ →
        K.coeff i i = (CurvatureV1_kappa self.toCurvatureBase).coeff i i) := by
  have hdiag : ∀ (nlo : Nat) (zeta : ℝ) (S_lo kappa1 : Mat ℝ) (i : Nat), i < nlo →
      (blend_kappa2 erf erfc sqrt nlo zeta S_lo kappa1).coeff i i = kappa1.coeff i i := by
    intro nlo zeta S_lo kappa1 i hi
    rw [blend_kappa2_coeff erf erfc sqrt nlo zeta S_lo kappa1 i i hi hi,
      if_neg (Nat.lt_irrefl i), if_pos rfl]
  refine ⟨hdiag, kappa_scheduled_returns erf erfc sqrt CurvatureV1_kappa schedule self, ?_⟩
  intro K hK i hi
  obtain ⟨b, _, rfl⟩ := kappa_scheduled_eq_some erf erfc sqrt CurvatureV1_kappa schedule self
    K hK
  exact hdiag _ _ _ _ i hi

/-- Witness for C12: the diagonal of the matrix returned for the sample engine
is the diagonal of `kappa1`. -/
theorem CurvatureV2_kappa_diagonal_witness :
    (1 ≤ (sample_engine : CurvatureV2 Unit ℝ).nlo_ ∧
      (sample_engine : CurvatureV2 Unit ℝ).nlo_ ≤ 125000000) ∧
    ∃ K, CurvatureV2.kappa_scheduled (fun x => x) (fun x => 1 - x) (fun x => x)
        (fun e => e.df_pii_) List.range (sample_engine : CurvatureV2 Unit ℝ) = some K ∧
      K.coeff 1 1 = (sample_engine : CurvatureV2 Unit ℝ).df_pii_.coeff 1 1 := by
  obtain ⟨K, hK⟩ := (CurvatureV2_kappa_diagonal (fun x => x) (fun x => 1 - x) (fun x => x)
    (fun e => e.df_pii_) List.range (sample_engine : CurvatureV2 Unit ℝ)).2.1
    (by decide) (by decide)
  exact ⟨⟨by decide, by decide⟩, K, hK,
    (CurvatureV2_kappa_diagonal (fun x => x) (fun x => 1 - x) (fun x => x)
      (fun e => e.df_pii_) List.range (sample_engine : CurvatureV2 Unit ℝ)).2.2 K hK 1
      (by decide)⟩

end kappa_result_claims

section blend_value_claims

variable {δ : Type}

/-- C13: with `erf(0) = 0` and `erfc(0) = 1`, for every pair `j < i < nlo` whose
overlap `S_lo(i,j)` is zero, and for any `zeta`, the matrix built at lines
71-83 has `kappa2(i,j) = kappa1(i,j)` exactly; so has every matrix returned by
`CurvatureV2::kappa`, with `S_lo` the accumulated overlap. -/
theorem CurvatureV2_kappa_zero_overlap (erf erfc sqrt : ℝ → ℝ)
    (herf : erf 0 = 0) (herfc : erfc 0 = 1)
    (CurvatureV1_kappa : CurvatureBase δ ℝ → Mat ℝ) (schedule : Nat → List Nat)
    (self : CurvatureV2 δ ℝ) :
    (∀ (nlo : Nat) (zeta : ℝ) (S_lo kappa1 : Mat ℝ) (i j : Nat), j < i → i < nlo →
      S_lo.coeff i j = 0 →
      (blend_kappa2 erf erfc sqrt nlo zeta S_lo kappa1).coeff i j = kappa1.coeff i j) ∧
    (1 ≤ self.nlo_ → self.nlo_ ≤ 125000000 →
      ∃ K, CurvatureV2.kappa_scheduled erf erfc sqrt CurvatureV1_kappa schedule self = some K) ∧
    (∀ b K, blocking self.npts_ self.nlo_ = some b →
      CurvatureV2.kappa_scheduled erf erfc sqrt CurvatureV1_kappa schedule self = some K →
      ∀ i j, j < i → i < self.nlo_ →
        (overlap_S_lo self.toCurvatureBase b (schedule b.nBLK)).coeff i j = 0 →
        K.coeff i j = (CurvatureV1_kappa self.toCurvatureBase).coeff i j) := by
  have hzero : ∀ (nlo : Nat) (zeta : ℝ) (S_lo kappa1 : Mat ℝ) (i j : Nat), j < i → i < nlo →
      S_lo.coeff i j = 0 →
      (blend_kappa2 erf erfc sqrt nlo zeta S_lo kappa1).coeff i j = kappa1.coeff i j := by
    intro nlo zeta S_lo kappa1 i j hji hi hS
    rw [blend_kappa2_coeff erf erfc sqrt nlo zeta S_lo kappa1 i j hi (by omega), if_pos hji,
      hS, mul_zero, herf, herfc, zero_mul, zero_add, one_mul]
  refine ⟨hzero, kappa_scheduled_returns erf erfc sqrt CurvatureV1_kappa schedule self, ?_⟩
  intro b K hb hK i j hji hi hS
  rw [kappa_scheduled_some erf erfc sqrt CurvatureV1_kappa schedule self b hb] at hK
  rw [← Option.some.inj hK]
  exact hzero _ _ _ _ i j hji hi hS

/-- Witness for C13: a zero overlap matrix of two orbitals, with `erf` the
identity and `erfc = 1 - erf`. -/
theorem CurvatureV2_kappa_zero_overlap_witness :
    ((fun x : ℝ => x) 0 = 0 ∧ (fun x : ℝ => 1 - x) 0 = 1) ∧
    (Mat.zero 2 2 : Mat ℝ).coeff 1 0 = 0 ∧
    (blend_kappa2 (fun x : ℝ => x) (fun x => 1 - x) (fun x => x) 2 3 (Mat.zero 2 2)
      (Mat.const 2 2 5)).coeff 1 0 = (Mat.const 2 2 (5 : ℝ)).coeff 1 0 :=
  ⟨⟨rfl, by norm_num⟩, rfl,
    (CurvatureV2_kappa_zero_overlap (fun x : ℝ => x) (fun x => 1 - x) (fun x => x) rfl
      (by norm_num) (fun e => e.df_pii_) List.range
      (sample_engine : CurvatureV2 Unit ℝ)).1 2 3 (Mat.zero 2 2) (Mat.const 2 2 5) 1 0
      (by decide) (by decide) rfl⟩

theorem convex_blend_bounds (e G k : ℝ) (h0 : 0 ≤ e) (h1 : e ≤ 1) :
    min k G ≤ e * G + (1 - e) * k ∧ e * G + (1 - e) * k ≤ max k G := by
  have hmG : min k G ≤ G := min_le_right k G
  have hmk : min k G ≤ k := min_le_left k G
  have hMG : G ≤ max k G := le_max_right k G
  have hMk : k ≤ max k G := le_max_left k G
  have h2 : 0 ≤ 1 - e := by linarith
  constructor
  · have a1 : e * min k G ≤ e * G := mul_le_mul_of_nonneg_left hmG h0
    have a2 : (1 - e) * min k G ≤ (1 - e) * k := mul_le_mul_of_nonneg_left hmk h2
    nlinarith
  · have a1 : e * G ≤ e * max k G := mul_le_mul_of_nonneg_left hMG h0
    have a2 : (1 - e) * k ≤ (1 - e) * max k G := mul_le_mul_of_nonneg_left hMk h2
    nlinarith

/-- C19, as amended: in exact real arithmetic, for every pair `j < i < nlo`,
with `f = zeta * S_lo(i,j)`, given `erfc(f) = 1 - erf(f)` and `0 <= erf(f) <= 1`,
the entry `kappa2(i,j)` of the matrix built at lines 71-83 lies between
`kappa1(i,j)` and
`sqrt(|kappa1(i,i) * kappa1(j,j)|)`, and `kappa2(i,j) - kappa1(i,j) =
erf(f) * (sqrt(|kappa1(i,i) * kappa1(j,j)|) - kappa1(i,j))`; so does the entry of
every matrix returned by `CurvatureV2::kappa`, with `S_lo` the accumulated
overlap; the exact matrix is the one the loops of lines 71-83 give when every
product and sum is exact. -/
theorem CurvatureV2_kappa_convex_blend (erf erfc sqrt : ℝ → ℝ)
    (CurvatureV1_kappa : CurvatureBase δ ℝ → Mat ℝ) (schedule : Nat → List Nat)
    (self : CurvatureV2 δ ℝ) :
    (∀ (nlo : Nat) (zeta : ℝ) (S_lo kappa1 : Mat ℝ) (i j : Nat), j < i → i < nlo →
      erfc (zeta * S_lo.coeff i j) = 1 - erf (zeta * S_lo.coeff i j) →
      0 ≤ erf (zeta * S_lo.coeff i j) → erf (zeta * S_lo.coeff i j) ≤ 1 →
      min (kappa1.coeff i j) (sqrt |kappa1.coeff i i * kappa1.coeff j j|)
          ≤ (blend_kappa2 erf erfc sqrt nlo zeta S_lo kappa1).coeff i j ∧
      (blend_kappa2 erf erfc sqrt nlo zeta S_lo kappa1).coeff i j
          ≤ max (kappa1.coeff i j) (sqrt |kappa1.coeff i i * kappa1.coeff j j|) ∧
      (blend_kappa2 erf erfc sqrt nlo zeta S_lo kappa1).coeff i j - kappa1.coeff i j
          = erf (zeta * S_lo.coeff i j)
            * (sqrt |kappa1.coeff i i * kappa1.coeff j j| - kappa1.coeff i j)) ∧
    (1 ≤ self.nlo_ → self.nlo_ ≤ 125000000 →
      ∃ K, CurvatureV2.kappa_scheduled erf erfc sqrt CurvatureV1_kappa schedule self = some K) ∧
    (∀ b K, blocking self.npts_ self.nlo_ = some b →
      CurvatureV2.kappa_scheduled erf erfc sqrt CurvatureV1_kappa schedule self = some K →
      ∀ i j, j < i → i < self.nlo_ →
        erfc (self.zeta_ * (overlap_S_lo self.toCurvatureBase b (schedule b.nBLK)).coeff i j)
          = 1 - erf (self.zeta_
              * (overlap_S_lo self.toCurvatureBase b (schedule b.nBLK)).coeff i j) →
        0 ≤ erf (self.zeta_
              * (overlap_S_lo self.toCurvatureBase b (schedule b.nBLK)).coeff i j) →
        erf (self.zeta_
              * (overlap_S_lo self.toCurvatureBase b (schedule b.nBLK)).coeff i j) ≤ 1 →
        min ((CurvatureV1_kappa self.toCurvatureBase).coeff i j)
            (sqrt |(CurvatureV1_kappa self.toCurvatureBase).coeff i i
              * (CurvatureV1_kappa self.toCurvatureBase).coeff j j|) ≤ K.coeff i j ∧
        K.coeff i j
          ≤ max ((CurvatureV1_kappa self.toCurvatureBase).coeff i j)
            (sqrt |(CurvatureV1_kappa self.toCurvatureBase).coeff i i
              * (CurvatureV1_kappa self.toCurvatureBase).coeff j j|) ∧
        K.coeff i j - (CurvatureV1_kappa self.toCurvatureBase).coeff i j
          = erf (self.zeta_
                * (overlap_S_lo self.toCurvatureBase b (schedule b.nBLK)).coeff i j)
            * (sqrt |(CurvatureV1_kappa self.toCurvatureBase).coeff i i
                * (CurvatureV1_kappa self.toCurvatureBase).coeff j j|
              - (CurvatureV1_kappa self.toCurvatureBase).coeff i j)) ∧
    (∀ (nlo : Nat) (zeta : ℝ) (S_lo kappa1 : Mat ℝ),
      blend_kappa2_in exact_arithmetic erf erfc sqrt nlo zeta S_lo kappa1
        = blend_kappa2 erf erfc sqrt nlo zeta S_lo kappa1) := by
  have hconv : ∀ (nlo : Nat) (zeta : ℝ) (S_lo kappa1 : Mat ℝ) (i j : Nat), j < i → i < nlo →
      erfc (zeta * S_lo.coeff i j) = 1 - erf (zeta * S_lo.coeff i j) →
      0 ≤ erf (zeta * S_lo.coeff i j) → erf (zeta * S_lo.coeff i j) ≤ 1 →
      min (kappa1.coeff i j) (sqrt |kappa1.coeff i i * kappa1.coeff j j|)
          ≤ (blend_kappa2 erf erfc sqrt nlo zeta S_lo kappa1).coeff i j ∧
      (blend_kappa2 erf erfc sqrt nlo zeta S_lo kappa1).coeff i j
          ≤ max (kappa1.coeff i j) (sqrt |kappa1.coeff i i * kappa1.coeff j j|) ∧
      (blend_kappa2 erf erfc sqrt nlo zeta S_lo kappa1).coeff i j - kappa1.coeff i j
          = erf (zeta * S_lo.coeff i j)
            * (sqrt |kappa1.coeff i i * kappa1.coeff j j| - kappa1.coeff i j) := by
    intro nlo zeta S_lo kappa1 i j hji hi hc h0 h1
    rw [blend_kappa2_coeff erf erfc sqrt nlo zeta S_lo kappa1 i j hi (by omega), if_pos hji, hc]
    obtain ⟨hlo, hhi⟩ := convex_blend_bounds (erf (zeta * S_lo.coeff i j))
      (sqrt |kappa1.coeff i i * kappa1.coeff j j|) (kappa1.coeff i j) h0 h1
    exact ⟨hlo, hhi, by ring⟩
  refine ⟨hconv, kappa_scheduled_returns erf erfc sqrt CurvatureV1_kappa schedule self, ?_,
    fun nlo zeta S_lo kappa1 => rfl⟩
  intro b K hb hK i j hji hi hc h0 h1
  rw [kappa_scheduled_some erf erfc sqrt CurvatureV1_kappa schedule self b hb] at hK
  rw [← Option.some.inj hK]
  exact hconv _ _ _ _ i j hji hi hc h0 h1

/-- Witness for C19: `erf = erfc = 1/2` puts the blend of 4 and 2 at 3. -/
theorem CurvatureV2_kappa_convex_blend_witness :
    ((fun _ : ℝ => (1 / 2 : ℝ)) ((3 : ℝ) * (Mat.const 2 2 (1 : ℝ)).coeff 1 0)
        = 1 - (fun _ : ℝ => (1 / 2 : ℝ)) ((3 : ℝ) * (Mat.const 2 2 (1 : ℝ)).coeff 1 0) ∧
      (0 : ℝ) ≤ 1 / 2 ∧ (1 / 2 : ℝ) ≤ 1) ∧
    (blend_kappa2 (fun _ : ℝ => (1 / 2 : ℝ)) (fun _ => 1 / 2) (fun _ => 4) 2 3
        (Mat.const 2 2 1) (Mat.const 2 2 2)).coeff 1 0 - (Mat.const 2 2 (2 : ℝ)).coeff 1 0
      = (fun _ : ℝ => (1 / 2 : ℝ)) ((3 : ℝ) * (Mat.const 2 2 (1 : ℝ)).coeff 1 0)
        * ((fun _ : ℝ => (4 : ℝ)) |(Mat.const 2 2 (2 : ℝ)).coeff 1 1
            * (Mat.const 2 2 (2 : ℝ)).coeff 0 0| - (Mat.const 2 2 (2 : ℝ)).coeff 1 0) :=
  ⟨⟨by norm_num, by norm_num, by norm_num⟩,
    ((CurvatureV2_kappa_convex_blend (fun _ : ℝ => (1 / 2 : ℝ)) (fun _ => 1 / 2) (fun _ => 4)
      (fun e => e.df_pii_) List.range (sample_engine : CurvatureV2 Unit ℝ)).1 2 3
      (Mat.const 2 2 1) (Mat.const 2 2 2) 1 0 (by decide) (by decide) (by norm_num)
      (by norm_num) (by norm_num)).2.2⟩

end blend_value_claims

section blend_limit_claim

/-- C14: for fixed `kappa1` and every pair `j < i < nlo`, given `erf(f) -> 1` as
`f -> +infinity` and `erfc = 1 - erf`, the entry `kappa2(i,j) = erf(f) *
sqrt(|kappa1(i,i) * kappa1(j,j)|) + erfc(f) * kappa1(i,j)` of the matrix built at
lines 71-83 tends to `sqrt(|kappa1(i,i) * kappa1(j,j)|)` along every family of
values of `zeta` and `S_lo` on which `f = zeta * S_lo(i,j)` tends to
`+infinity`. -/
theorem CurvatureV2_kappa_blend_limit (erf erfc sqrt : ℝ → ℝ)
    (herf : Filter.Tendsto erf Filter.atTop (nhds 1)) (herfc : ∀ x, erfc x = 1 - erf x)
    (nlo : Nat) (kappa1 : Mat ℝ) (i j : Nat) (hji : j < i) (hi : i < nlo)
    {ι : Type} (l : Filter ι) (zeta : ι → ℝ) (S_lo : ι → Mat ℝ)
    (hf : Filter.Tendsto (fun x => zeta x * (S_lo x).coeff i j) l Filter.atTop) :
    Filter.Tendsto
      (fun x => (blend_kappa2 erf erfc sqrt nlo (zeta x) (S_lo x) kappa1).coeff i j) l
      (nhds (sqrt |kappa1.coeff i i * kappa1.coeff j j|)) := by
  have hcoeff : ∀ x, (blend_kappa2 erf erfc sqrt nlo (zeta x) (S_lo x) kappa1).coeff i j
      = erf (zeta x * (S_lo x).coeff i j) * sqrt |kappa1.coeff i i * kappa1.coeff j j|
        + (1 - erf (zeta x * (S_lo x).coeff i j)) * kappa1.coeff i j := by
    intro x
    rw [blend_kappa2_coeff erf erfc sqrt nlo (zeta x) (S_lo x) kappa1 i j hi (by omega),
      if_pos hji, herfc]
  simp only [hcoeff]
  have he : Filter.Tendsto (fun x => erf (zeta x * (S_lo x).coeff i j)) l (nhds 1) :=
    herf.comp hf
  have hlim := (he.mul_const (sqrt |kappa1.coeff i i * kappa1.coeff j j|)).add
    (((tendsto_const_nhds : Filter.Tendsto (fun _ : ι => (1 : ℝ)) l (nhds 1)).sub
      he).mul_const (kappa1.coeff i j))
  simpa using hlim

/-- Witness for C14: `erf(x) = 1 - exp(-x)`, a unit overlap and `zeta` growing
without bound. -/
theorem CurvatureV2_kappa_blend_limit_witness :
    Filter.Tendsto (fun x : ℝ => 1 - Real.exp (-x)) Filter.atTop (nhds 1) ∧
    Filter.Tendsto (fun x : ℝ => x * (Mat.const 2 2 (1 : ℝ)).coeff 1 0)
      Filter.atTop Filter.atTop ∧
    Filter.Tendsto
      (fun x : ℝ => (blend_kappa2 (fun x : ℝ => 1 - Real.exp (-x))
        (fun x => 1 - (1 - Real.exp (-x))) Real.sqrt 2 x (Mat.const 2 2 1)
        (Mat.const 2 2 2)).coeff 1 0) Filter.atTop
      (nhds (Real.sqrt |(Mat.const 2 2 (2 : ℝ)).coeff 1 1 * (Mat.const 2 2 (2 : ℝ)).coeff 0 0|)) :=
  have h1 : Filter.Tendsto (fun x : ℝ => 1 - Real.exp (-x)) Filter.atTop (nhds 1) := by
    simpa using (tendsto_const_nhds :
      Filter.Tendsto (fun _ : ℝ => (1 : ℝ)) Filter.atTop (nhds 1)).sub
      Real.tendsto_exp_neg_atTop_nhds_zero
  have h2 : Filter.Tendsto (fun x : ℝ => x * (Mat.const 2 2 (1 : ℝ)).coeff 1 0)
      Filter.atTop Filter.atTop := by
    simpa [Mat.const] using Filter.tendsto_id
  ⟨h1, h2, CurvatureV2_kappa_blend_limit (fun x : ℝ => 1 - Real.exp (-x))
    (fun x => 1 - (1 - Real.exp (-x))) Real.sqrt h1 (fun _ => rfl) 2 (Mat.const 2 2 2) 1 0
    (by decide) (by decide) Filter.atTop (fun x => x) (fun _ => Mat.const 2 2 1) h2⟩

end blend_limit_claim

section partition_claims

theorem blocking_eq_grid_blocks (npts nlo : Nat) :
    blocking npts nlo
      = match kappa_block_size nlo with
        | none => none
        | some bs => if bs = 0 then none else some (grid_blocks npts bs) := by
  unfold blocking kappa_block_size grid_blocks
  by_cases h : nlo = 0
  · simp [h]
  · simp [h]

theorem grid_blocks_nBLK (npts bs : Nat) :
    (grid_blocks npts bs).nBLK = if npts % bs ≠ 0 then npts / bs + 1 else npts / bs := rfl

theorem grid_blocks_length (npts bs n : Nat) :
    block_length (grid_blocks npts bs) n
      = if n = (grid_blocks npts bs).nBLK - 1 ∧ npts % bs ≠ 0 then npts % bs else bs := rfl

/-- Size and position of one block: it is not empty, not larger than the block
size, and ends inside the grid; blocks before the last are full. -/
theorem grid_blocks_block (npts bs : Nat) (hbs : 1 ≤ bs) (n : Nat)
    (hn : n < (grid_blocks npts bs).nBLK) :
    1 ≤ block_length (grid_blocks npts bs) n ∧ block_length (grid_blocks npts bs) n ≤ bs ∧
    n * bs + block_length (grid_blocks npts bs) n ≤ npts ∧
    (n + 1 < (grid_blocks npts bs).nBLK → block_length (grid_blocks npts bs) n = bs) := by
  have hdm : npts / bs * bs + npts % bs = npts := Nat.div_add_mod' npts bs
  have hr : npts % bs < bs := Nat.mod_lt npts (by omega)
  rw [grid_blocks_length]
  rw [grid_blocks_nBLK] at hn ⊢
  by_cases hres : npts % bs = 0
  · have hcond : ¬ (n = (if npts % bs ≠ 0 then npts / bs + 1 else npts / bs) - 1
        ∧ npts % bs ≠ 0) := fun hh => hh.2 hres
    rw [if_neg hcond]
    rw [if_neg (by simpa using hres)] at hn
    have hmul : (n + 1) * bs ≤ npts / bs * bs := Nat.mul_le_mul_right bs hn
    rw [Nat.add_mul, Nat.one_mul] at hmul
    exact ⟨hbs, le_refl bs, by omega, fun _ => rfl⟩
  · rw [if_pos hres] at hn ⊢
    by_cases hlast : n = npts / bs
    · have hcond : n = npts / bs + 1 - 1 ∧ npts % bs ≠ 0 := ⟨by omega, hres⟩
      rw [if_pos hcond]
      subst hlast
      exact ⟨by omega, by omega, by omega, fun h => by omega⟩
    · have hcond : ¬ (n = npts / bs + 1 - 1 ∧ npts % bs ≠ 0) := fun hh => hlast (by omega)
      rw [if_neg hcond]
      have hlt : n + 1 ≤ npts / bs := by omega
      have hmul : (n + 1) * bs ≤ npts / bs * bs := Nat.mul_le_mul_right bs hlt
      rw [Nat.add_mul, Nat.one_mul] at hmul
      exact ⟨hbs, le_refl bs, by omega, fun _ => rfl⟩

/-- Blocks with different numbers have no grid point in common. -/
theorem grid_blocks_disjoint (npts bs : Nat) (hbs : 1 ≤ bs) (n n' : Nat)
    (hn : n < (grid_blocks npts bs).nBLK) (hn' : n' < (grid_blocks npts bs).nBLK)
    (hne : n ≠ n') (g : Nat)
    (h1 : n * bs ≤ g ∧ g < n * bs + block_length (grid_blocks npts bs) n)
    (h2 : n' * bs ≤ g ∧ g < n' * bs + block_length (grid_blocks npts bs) n') : False := by
  obtain ⟨_, hle, _, _⟩ := grid_blocks_block npts bs hbs n hn
  obtain ⟨_, hle', _, _⟩ := grid_blocks_block npts bs hbs n' hn'
  rcases Nat.lt_or_gt_of_ne hne with h | h
  · have hmul : (n + 1) * bs ≤ n' * bs := Nat.mul_le_mul_right bs h
    rw [Nat.add_mul, Nat.one_mul] at hmul
    omega
  · have hmul : (n' + 1) * bs ≤ n * bs := Nat.mul_le_mul_right bs h
    rw [Nat.add_mul, Nat.one_mul] at hmul
    omega

/-- Every grid point lies in the block numbered `g / block_size`. -/
theorem grid_blocks_cover (npts bs : Nat) (hbs : 1 ≤ bs) (g : Nat) (hg : g < npts) :
    g / bs < (grid_blocks npts bs).nBLK ∧ g / bs * bs ≤ g ∧
    g < g / bs * bs + block_length (grid_blocks npts bs) (g / bs) := by
  have hdm : npts / bs * bs + npts % bs = npts := Nat.div_add_mod' npts bs
  have hgdm : g / bs * bs + g % bs = g := Nat.div_add_mod' g bs
  have hgr : g % bs < bs := Nat.mod_lt g (by omega)
  have hq : g / bs ≤ npts / bs := Nat.div_le_div_right (le_of_lt hg)
  rw [grid_blocks_length, grid_blocks_nBLK]
  generalize npts / bs = q at hdm hq ⊢
  generalize npts % bs = r at hdm ⊢
  generalize g / bs = qg at hgdm hq ⊢
  generalize g % bs = rg at hgdm hgr
  by_cases hlast : qg = q
  · subst hlast
    have hres : r ≠ 0 := by
      intro h0
      omega
    rw [if_pos hres]
    have hcond : qg = qg + 1 - 1 ∧ r ≠ 0 := ⟨by omega, hres⟩
    rw [if_pos hcond]
    exact ⟨by omega, by omega, by omega⟩
  · have hlt : qg < q := by omega
    have hcond : ¬ (qg = (if r ≠ 0 then q + 1 else q) - 1 ∧ r ≠ 0) := by
      rintro ⟨h1, h2⟩
      rw [if_pos h2] at h1
      omega
    rw [if_neg hcond]
    refine ⟨?_, by omega, by omega⟩
    by_cases hres : r ≠ 0
    · rw [if_pos hres]
      omega
    · rw [if_neg hres]
      exact hlt

/-- The blocks that `kappa` works with come from a block size of at least 1. -/
theorem blocking_some_grid_blocks (npts nlo : Nat) (b : Blocking)
    (hb : blocking npts nlo = some b) :
    ∃ bs, 1 ≤ bs ∧ kappa_block_size nlo = some bs ∧ b = grid_blocks npts bs := by
  rw [blocking_eq_grid_blocks] at hb
  cases hk : kappa_block_size nlo with
  | none =>
    rw [hk] at hb
    exact absurd hb (by simp)
  | some bs =>
    rw [hk] at hb
    simp only at hb
    by_cases h0 : bs = 0
    · rw [if_pos h0] at hb
      exact absurd hb (by simp)
    · rw [if_neg h0] at hb
      exact ⟨bs, by omega, rfl, (Option.some.inj hb).symm⟩

/-- C15: for every `npts` and every `block_size >= 1`, with `nBLK` and the block
sizes of lines 22-34, every block `n < nBLK` has `1 <= size_n <= block_size` and
its range `[n*block_size, n*block_size + size_n)` lies inside `[0, npts)`, where
`size_n` is `npts % block_size` for the last block when that remainder is not
zero and `block_size` otherwise; every block before the last is full; two different blocks share no grid point; every
grid point `g < npts` lies in exactly one block; for `npts = 0` there are no
blocks; and the blocks used by `CurvatureV2::kappa` are of this form. -/
theorem CurvatureV2_grid_blocks_partition (npts block_size : Nat) (hbs : 1 ≤ block_size) :
    (grid_blocks npts block_size).nBLK
      = (if npts % block_size ≠ 0 then npts / block_size + 1 else npts / block_size) ∧
    (∀ n, block_length (grid_blocks npts block_size) n
      = if n = (grid_blocks npts block_size).nBLK - 1 ∧ npts % block_size ≠ 0
        then npts % block_size else block_size) ∧
    (∀ n, n < (grid_blocks npts block_size).nBLK →
      1 ≤ block_length (grid_blocks npts block_size) n ∧
      block_length (grid_blocks npts block_size) n ≤ block_size ∧
      n * block_size + block_length (grid_blocks npts block_size) n ≤ npts ∧
      (n + 1 < (grid_blocks npts block_size).nBLK →
        block_length (grid_blocks npts block_size) n = block_size)) ∧
    (∀ n n', n < (grid_blocks npts block_size).nBLK →
      n' < (grid_blocks npts block_size).nBLK → n ≠ n' →
      ∀ g, ¬ ((n * block_size ≤ g
            ∧ g < n * block_size + block_length (grid_blocks npts block_size) n)
          ∧ (n' * block_size ≤ g
            ∧ g < n' * block_size + block_length (grid_blocks npts block_size) n'))) ∧
    (∀ g, g < npts → ∃! n, n < (grid_blocks npts block_size).nBLK ∧
      n * block_size ≤ g
        ∧ g < n * block_size + block_length (grid_blocks npts block_size) n) ∧
    (npts = 0 → (grid_blocks npts block_size).nBLK = 0) ∧
    (∀ nlo b, blocking npts nlo = some b →
      ∃ bs, 1 ≤ bs ∧ kappa_block_size nlo = some bs ∧ b = grid_blocks npts bs) := by
  refine ⟨rfl, fun n => rfl, fun n hn => grid_blocks_block npts block_size hbs n hn,
    ?_, ?_, ?_, ?_⟩
  · intro n n' hn hn' hne g hh
    exact grid_blocks_disjoint npts block_size hbs n n' hn hn' hne g hh.1 hh.2
  · intro g hg
    obtain ⟨h1, h2, h3⟩ := grid_blocks_cover npts block_size hbs g hg
    refine ⟨g / block_size, ⟨h1, h2, h3⟩, ?_⟩
    rintro n ⟨hn1, hn2, hn3⟩
    by_contra hne
    exact grid_blocks_disjoint npts block_size hbs n (g / block_size) hn1 h1 hne g
      ⟨hn2, hn3⟩ ⟨h2, h3⟩
  · intro h0
    subst h0
    simp [grid_blocks_nBLK]
  · intro nlo b hb
    exact blocking_some_grid_blocks npts nlo b hb

/-- Witness for C15: seven grid points in blocks of three make three blocks,
the last of one point. -/
theorem CurvatureV2_grid_blocks_partition_witness :
    1 ≤ 3 ∧ (grid_blocks 7 3).nBLK = 3 ∧ block_length (grid_blocks 7 3) 2 = 1 ∧
    (∀ n, n < (grid_blocks 7 3).nBLK →
      1 ≤ block_length (grid_blocks 7 3) n ∧
      block_length (grid_blocks 7 3) n ≤ 3 ∧
      n * 3 + block_length (grid_blocks 7 3) n ≤ 7 ∧
      (n + 1 < (grid_blocks 7 3).nBLK → block_length (grid_blocks 7 3) n = 3)) :=
  ⟨by decide, by decide, by decide,
    (CurvatureV2_grid_blocks_partition 7 3 (by decide)).2.2.1⟩

end partition_claims

section block_size_claim

theorem kappa_block_size_pos_iff (nlo : Nat) (hnlo : 1 ≤ nlo) :
    1 ≤ 1000 * 1000 * 1000 / 8 / nlo ↔ nlo ≤ 125000000 := by
  have h8 : 1000 * 1000 * 1000 / 8 = 125000000 := by norm_num
  rw [h8]
  constructor
  · intro h
    by_contra hgt
    have : 125000000 / nlo = 0 := Nat.div_eq_of_lt (by omega)
    omega
  · intro h
    exact Nat.div_pos h (by omega)

theorem blocking_isSome_iff (npts nlo : Nat) :
    (∃ b, blocking npts nlo = some b) ↔ (1 ≤ nlo ∧ nlo ≤ 125000000) := by
  constructor
  · rintro ⟨b, hb⟩
    unfold blocking at hb
    by_cases h0 : nlo = 0
    · rw [if_pos h0] at hb
      exact absurd hb (by simp)
    · rw [if_neg h0] at hb
      simp only at hb
      by_cases hbs : 1000 * 1000 * 1000 / 8 / nlo = 0
      · rw [if_pos hbs] at hb
        exact absurd hb (by simp)
      · have h1 : 1 ≤ nlo := by omega
        exact ⟨h1, (kappa_block_size_pos_iff nlo h1).mp (Nat.pos_of_ne_zero hbs)⟩
  · rintro ⟨h1, h2⟩
    obtain ⟨b, hb, _⟩ := blocking_some npts nlo h1 h2
    exact ⟨b, hb⟩

/-- C16: for every `nlo >= 1` the block size of lines 20-21, `(10^9 / 8) / nlo`
in integer division, is `floor(10^9 / (8 * nlo))`, and `block_size * nlo * 8 <=
10^9 <= 2^30`; it is at least 1 exactly when `nlo <= 125000000`; and the
divisions of lines 22-23 are defined (the blocking exists) exactly when
`1 <= nlo <= 125000000`, in which case the block size is at least 1 and within
the ceiling. -/
theorem CurvatureV2_block_size_ceiling (nlo : Nat) :
    (1 ≤ nlo → ∃ bs, kappa_block_size nlo = some bs ∧
      bs = 1000 * 1000 * 1000 / 8 / nlo ∧
      bs = 10 ^ 9 / (8 * nlo) ∧
      bs * (8 * nlo) ≤ 10 ^ 9 ∧ 10 ^ 9 < (bs + 1) * (8 * nlo) ∧
      bs * nlo * 8 ≤ 10 ^ 9 ∧ 10 ^ 9 ≤ 2 ^ 30 ∧
      (1 ≤ bs ↔ nlo ≤ 125000000)) ∧
    (∀ npts, (∃ b, blocking npts nlo = some b) ↔ (1 ≤ nlo ∧ nlo ≤ 125000000)) ∧
    (∀ npts b, blocking npts nlo = some b →
      kappa_block_size nlo = some b.block_size ∧ 1 ≤ b.block_size ∧
      b.block_size * nlo * 8 ≤ 10 ^ 9) := by
  have hdiv : 1000 * 1000 * 1000 / 8 / nlo = 10 ^ 9 / (8 * nlo) := by
    rw [Nat.div_div_eq_div_mul]
    norm_num
  have hle : 10 ^ 9 / (8 * nlo) * (8 * nlo) ≤ 10 ^ 9 := Nat.div_mul_le_self _ _
  have hle2 : 1000 * 1000 * 1000 / 8 / nlo * nlo * 8 ≤ 10 ^ 9 := by
    rw [hdiv, Nat.mul_assoc, Nat.mul_comm nlo 8]
    exact hle
  refine ⟨?_, fun npts => blocking_isSome_iff npts nlo, ?_⟩
  · intro hnlo
    have hk : kappa_block_size nlo = some (1000 * 1000 * 1000 / 8 / nlo) := by
      unfold kappa_block_size
      rw [if_neg (by omega)]
    have hpos : 0 < 8 * nlo := by omega
    have hlt : 10 ^ 9 < (10 ^ 9 / (8 * nlo) + 1) * (8 * nlo) := by
      have h1 := Nat.div_add_mod' (10 ^ 9) (8 * nlo)
      have h2 := Nat.mod_lt (10 ^ 9) hpos
      rw [Nat.add_mul, Nat.one_mul]
      omega
    refine ⟨_, hk, rfl, hdiv, ?_, ?_, hle2, by norm_num, kappa_block_size_pos_iff nlo hnlo⟩
    · rw [hdiv]
      exact hle
    · rw [hdiv]
      exact hlt
  · intro npts b hb
    obtain ⟨h1, h2⟩ := (blocking_isSome_iff npts nlo).mp ⟨b, hb⟩
    obtain ⟨b', hb', hpos, hbs, _⟩ := blocking_some npts nlo h1 h2
    rw [hb] at hb'
    have hbb : b = b' := Option.some.inj hb'
    subst hbb
    refine ⟨?_, hpos, ?_⟩
    · unfold kappa_block_size
      rw [if_neg (by omega), hbs]
    · rw [hbs]
      exact hle2

/-- Witness for C16: two orbitals give blocks of 62500000 grid points. -/
theorem CurvatureV2_block_size_ceiling_witness :
    1 ≤ 2 ∧ kappa_block_size 2 = some 62500000 ∧
    ∃ bs, kappa_block_size 2 = some bs ∧
      bs = 1000 * 1000 * 1000 / 8 / 2 ∧
      bs = 10 ^ 9 / (8 * 2) ∧
      bs * (8 * 2) ≤ 10 ^ 9 ∧ 10 ^ 9 < (bs + 1) * (8 * 2) ∧
      bs * 2 * 8 ≤ 10 ^ 9 ∧ 10 ^ 9 ≤ 2 ^ 30 ∧
      (1 ≤ bs ↔ 2 ≤ 125000000) :=
  ⟨by decide, by decide, (CurvatureV2_block_size_ceiling 2).1 (by decide)⟩

end block_size_claim

section packing_claim

theorem triangle_succ (m : Nat) : (m + 1) * (m + 1 + 1) / 2 = m * (m + 1) / 2 + (m + 1) := by
  have h : (m + 1) * (m + 1 + 1) = m * (m + 1) + 2 * (m + 1) := by ring
  rw [h, Nat.add_mul_div_left _ _ (by decide : 0 < 2)]

theorem triangle_mono {a b : Nat} (h : a ≤ b) : a * (a + 1) / 2 ≤ b * (b + 1) / 2 :=
  Nat.div_le_div_right (Nat.mul_le_mul h (Nat.succ_le_succ h))

theorem packed_index_lt_next (m n : Nat) (hn : n ≤ m) :
    packed_index m n < (m + 1) * (m + 1 + 1) / 2 := by
  rw [triangle_succ]
  unfold packed_index
  omega

theorem packed_index_lt_of_lt {m n m' n' : Nat} (hn : n ≤ m) (hlt : m < m') :
    packed_index m n < packed_index m' n' := by
  have h1 := packed_index_lt_next m n hn
  have h2 : (m + 1) * (m + 1 + 1) / 2 ≤ m' * (m' + 1) / 2 := triangle_mono hlt
  unfold packed_index at h1 ⊢
  omega

theorem packed_index_injective {m n m' n' : Nat} (hn : n ≤ m) (hn' : n' ≤ m')
    (h : packed_index m n = packed_index m' n') : m = m' ∧ n = n' := by
  rcases Nat.lt_trichotomy m m' with hlt | heq | hgt
  · have := @packed_index_lt_of_lt m n m' n' hn hlt
    omega
  · subst heq
    unfold packed_index at h
    exact ⟨rfl, by omega⟩
  · have := @packed_index_lt_of_lt m' n' m n hn' hgt
    omega

theorem packed_index_lt_total {nbasis m n : Nat} (hn : n ≤ m) (hm : m < nbasis) :
    packed_index m n < nbasis * (nbasis + 1) / 2 := by
  have h1 := packed_index_lt_next m n hn
  have h2 : (m + 1) * (m + 1 + 1) / 2 ≤ nbasis * (nbasis + 1) / 2 := triangle_mono hm
  omega

theorem packed_index_surjective (nbasis c : Nat) (hc : c < nbasis * (nbasis + 1) / 2) :
    ∃ m n, n ≤ m ∧ m < nbasis ∧ packed_index m n = c := by
  induction nbasis with
  | zero => simp at hc
  | succ k ih =>
    by_cases hlt : c < k * (k + 1) / 2
    · obtain ⟨m, n, h1, h2, h3⟩ := ih hlt
      exact ⟨m, n, h1, by omega, h3⟩
    · rw [triangle_succ] at hc
      refine ⟨k, c - k * (k + 1) / 2, by omega, by omega, ?_⟩
      unfold packed_index
      omega

/-- The reads of lines 79-84 go through the columns `0, 1, 2, ...` in order. -/
theorem unpack_reads_eq_range (nbasis : Nat) :
    unpack_reads nbasis = List.range (nbasis * (nbasis + 1) / 2) := by
  induction nbasis with
  | zero => rfl
  | succ k ih =>
    have hstep : unpack_reads (k + 1)
        = unpack_reads k ++ (List.range (k + 1)).map (fun n => packed_index k n) := by
      unfold unpack_reads
      conv_lhs => rw [List.range_succ, List.flatMap_append]
      simp
    rw [hstep, ih, triangle_succ, List.range_add (k * (k + 1) / 2) (k + 1)]
    rfl

/-- C18: the map `(m, n) -> m*(m+1)/2 + n` of line 81, restricted to
`n <= m < nbasis`, is injective and its image is exactly
`{0, ..., nbasis*(nbasis+1)/2 - 1}`, for every `nbasis`; the loops of lines 79-84
read the cell `(m, n)` from column `m*(m+1)/2 + n` and go through the columns
`0, ..., nbasis*(nbasis+1)/2 - 1` once each, so for a row of
`nbasis*(nbasis+1)/2` columns every column is read exactly once and no read is
out of range; a block that passed the column check of line 66 has that many
columns when `nbasis < 2^32`. -/
theorem packed_index_bijection (nbasis : Nat) :
    (∀ m n m' n', n ≤ m → m < nbasis → n' ≤ m' → m' < nbasis →
      packed_index m n = packed_index m' n' → m = m' ∧ n = n') ∧
    (∀ c, c < nbasis * (nbasis + 1) / 2 ↔
      ∃ m n, n ≤ m ∧ m < nbasis ∧ packed_index m n = c) ∧
    (∀ (B : Mat ℝ) (pi m n : Nat), m < nbasis → n ≤ m →
      (unpack_lower B pi nbasis).coeff m n = B.coeff pi (packed_index m n)) ∧
    unpack_reads nbasis = List.range (nbasis * (nbasis + 1) / 2) ∧
    (∀ s : Operands ℝ, s.C_lo.rows = nbasis →
      s.df_pmn_block.cols = nbasis * (nbasis + 1) / 2 →
      (∀ m n, n ≤ m → m < nbasis → packed_index m n < s.df_pmn_block.cols) ∧
      (∀ c, c < s.df_pmn_block.cols →
        ∃! mn : Nat × Nat, mn.2 ≤ mn.1 ∧ mn.1 < nbasis ∧ packed_index mn.1 mn.2 = c) ∧
      unpack_reads s.C_lo.rows = List.range s.df_pmn_block.cols) ∧
    (∀ s : Operands ℝ, s.C_lo.rows = nbasis → nbasis < 2 ^ 32 →
      s.df_pmn_block.cols = expected_cols s.C_lo.rows →
      s.df_pmn_block.cols = nbasis * (nbasis + 1) / 2) := by
  refine ⟨?_, ?_, ?_, unpack_reads_eq_range nbasis, ?_, ?_⟩
  · intro m n m' n' hn _ hn' _ h
    exact packed_index_injective hn hn' h
  · intro c
    constructor
    · exact packed_index_surjective nbasis c
    · rintro ⟨m, n, hn, hm, rfl⟩
      exact packed_index_lt_total hn hm
  · intro B pi m n hm hn
    exact unpack_lower_coeff B pi nbasis m n hm hn
  · intro s hrows hcols
    refine ⟨?_, ?_, ?_⟩
    · intro m n hn hm
      rw [hcols]
      exact packed_index_lt_total hn hm
    · intro c hc
      rw [hcols] at hc
      obtain ⟨m, n, hn, hm, hmn⟩ := packed_index_surjective nbasis c hc
      refine ⟨(m, n), ⟨hn, hm, hmn⟩, ?_⟩
      rintro ⟨m', n'⟩ ⟨hn', _, hmn'⟩
      obtain ⟨e1, e2⟩ := packed_index_injective hn' hn (hmn'.trans hmn.symm)
      simp only at e1 e2
      rw [e1, e2]
    · rw [hrows, hcols]
      exact unpack_reads_eq_range nbasis
  · intro s hrows hlt hcols
    rw [hcols, hrows]
    unfold expected_cols SIZE_MOD
    have hb : nbasis * (nbasis + 1) < 2 ^ 64 := by
      have h1 : nbasis + 1 ≤ 2 ^ 32 := hlt
      calc nbasis * (nbasis + 1)
          < 2 ^ 32 * (nbasis + 1) := Nat.mul_lt_mul_of_pos_right hlt (by omega)
        _ ≤ 2 ^ 32 * 2 ^ 32 := Nat.mul_le_mul_left _ h1
        _ = 2 ^ 64 := by norm_num
    rw [Nat.mod_eq_of_lt hb]

/-- Witness for C18: the sample block of three columns over two basis
functions passed the column check; its columns 0, 1, 2 are read in order. -/
theorem packed_index_bijection_witness :
    ((sample_operands : Operands ℝ).C_lo.rows = 2 ∧ 2 < 2 ^ 32 ∧
      (sample_operands : Operands ℝ).df_pmn_block.cols
        = expected_cols (sample_operands : Operands ℝ).C_lo.rows) ∧
    (sample_operands : Operands ℝ).df_pmn_block.cols = 2 * (2 + 1) / 2 ∧
    unpack_reads 2 = [0, 1, 2] ∧
    unpack_reads 2 = List.range (2 * (2 + 1) / 2) :=
  ⟨⟨rfl, by decide, by decide⟩,
    (packed_index_bijection 2).2.2.2.2.2 sample_operands rfl (by decide) (by decide),
    by decide, (packed_index_bijection 2).2.2.2.1⟩

end packing_claim

section arithmetic_lemmas

variable {δ α : Type} [LinearOrderedField α]

theorem blend_kappa2_in_exact (erf erfc sqrt : α → α) (nlo : Nat) (zeta : α)
    (S_lo kappa1 : Mat α) :
    blend_kappa2_in exact_arithmetic erf erfc sqrt nlo zeta S_lo kappa1
      = blend_kappa2 erf erfc sqrt nlo zeta S_lo kappa1 := rfl

end arithmetic_lemmas

section nonneg_claim

variable {δ : Type}

end nonneg_claim

section update_conflict

theorem mem_block_updates (nlo : Nat) (b : Blocking) (n i j : Nat) :
    (i, j) ∈ block_updates nlo b n ↔ 0 < block_length b n ∧ i < nlo ∧ j ≤ i := by
  unfold block_updates
  simp only [List.mem_flatMap, List.mem_range, List.mem_map, Prod.mk.injEq]
  constructor
  · rintro ⟨ip, hip, i', hi', j', hj', rfl, rfl⟩
    exact ⟨by omega, hi', by omega⟩
  · rintro ⟨hlen, hi, hj⟩
    exact ⟨0, hlen, i, hi, j, by omega, rfl, rfl⟩

/-- Any two blocks of a grid update every cell of the lower triangle of
`S_lo`. -/
theorem block_updates_shared (npts nlo : Nat) (b : Blocking)
    (hb : blocking npts nlo = some b) (n n' : Nat) (hn : n < b.nBLK) (hn' : n' < b.nBLK)
    (i j : Nat) (hi : i < nlo) (hj : j ≤ i) :
    (i, j) ∈ block_updates nlo b n ∧ (i, j) ∈ block_updates nlo b n' := by
  obtain ⟨bs, hbs, _, rfl⟩ := blocking_some_grid_blocks npts nlo b hb
  obtain ⟨h1, _⟩ := grid_blocks_block npts bs hbs n hn
  obtain ⟨h1', _⟩ := grid_blocks_block npts bs hbs n' hn'
  exact ⟨(mem_block_updates nlo _ n i j).mpr ⟨h1, hi, hj⟩,
    (mem_block_updates nlo _ n' i j).mpr ⟨h1', hi, hj⟩⟩

/-- C17: the members of the sample engine (two orbitals, 62500001 grid
points) are accepted by the constructor, the grid falls into the two blocks 0
and 1, and both blocks update the cell `(0,0)`
of `S_lo` at line 52 (as they do every cell of the lower triangle); the loop
of line 31 carries no reduction, atomic or critical clause, so under the
pragma of line 28 these updates of one cell are concurrent and
unsynchronised. -/
theorem CurvatureV2_blocks_update_same_cell :
    CurvatureBase.new () (sample_engine : CurvatureV2 Unit ℝ).C_lo_
        (sample_engine : CurvatureV2 Unit ℝ).df_pii_
        (sample_engine : CurvatureV2 Unit ℝ).df_Vpq_inverse_
        (sample_engine : CurvatureV2 Unit ℝ).grid_basis_value_
        (sample_engine : CurvatureV2 Unit ℝ).grid_weight_
      = Except.ok (sample_engine : CurvatureV2 Unit ℝ).toCurvatureBase ∧
    blocking (sample_engine : CurvatureV2 Unit ℝ).npts_
        (sample_engine : CurvatureV2 Unit ℝ).nlo_ = some ⟨62500000, 2, 1⟩ ∧
    (0 : Nat) ≠ 1 ∧ 0 < (2 : Nat) ∧ 1 < (2 : Nat) ∧
    (0, 0) ∈ block_updates (sample_engine : CurvatureV2 Unit ℝ).nlo_ ⟨62500000, 2, 1⟩ 0 ∧
    (0, 0) ∈ block_updates (sample_engine : CurvatureV2 Unit ℝ).nlo_ ⟨62500000, 2, 1⟩ 1 ∧
    (1, 0) ∈ block_updates (sample_engine : CurvatureV2 Unit ℝ).nlo_ ⟨62500000, 2, 1⟩ 0 ∧
    (1, 0) ∈ block_updates (sample_engine : CurvatureV2 Unit ℝ).nlo_ ⟨62500000, 2, 1⟩ 1 :=
  have hb : blocking (sample_engine : CurvatureV2 Unit ℝ).npts_
      (sample_engine : CurvatureV2 Unit ℝ).nlo_ = some ⟨62500000, 2, 1⟩ := by decide
  have h00 := block_updates_shared _ _ _ hb 0 1 (by decide) (by decide) 0 0 (by decide)
    (by decide)
  have h10 := block_updates_shared _ _ _ hb 0 1 (by decide) (by decide) 1 0 (by decide)
    (by decide)
  ⟨rfl, hb, by decide, by decide, by decide, h00.1, h00.2, h10.1, h10.2⟩

end update_conflict

section stored_writes

variable {α : Type} [LinearOrderedField α]

theorem Mat.set_stored_eq_set (M : Mat α) (r c : Nat) (v : α) (hr : r < M.rows)
    (hc : c < M.cols) : M.set_stored r c v = M.set r c v := by
  unfold Mat.set_stored
  have hlt : r + c * M.rows < M.rows * M.cols := by
    have h1 : (c + 1) * M.rows ≤ M.cols * M.rows := Nat.mul_le_mul_right _ hc
    rw [Nat.add_mul, Nat.one_mul, Nat.mul_comm M.cols] at h1
    omega
  have hmod : (r + c * M.rows) % M.rows = r := by
    rw [Nat.add_mul_mod_self_right, Nat.mod_eq_of_lt hr]
  have hdiv : (r + c * M.rows) / M.rows = c := by
    rw [Nat.add_mul_div_right _ _ (by omega : 0 < M.rows), Nat.div_eq_of_lt hr, Nat.zero_add]
  simp only [hlt, if_true, hmod, hdiv]

theorem Mat.set_stored_rows (M : Mat α) (r c : Nat) (v : α) :
    (M.set_stored r c v).rows = M.rows := by
  unfold Mat.set_stored
  simp only
  split_ifs <;> rfl

theorem Mat.set_stored_cols (M : Mat α) (r c : Nat) (v : α) :
    (M.set_stored r c v).cols = M.cols := by
  unfold Mat.set_stored
  simp only
  split_ifs <;> rfl

/-- A row of writes inside the matrix is the same through the buffer. -/
theorem forLoop_set_stored_row (r : Nat) (f : Nat → α) (k : Nat) (M : Mat α)
    (hr : r < M.rows) (hk : k ≤ M.cols) :
    forLoop k (fun c A => A.set_stored r c (f c)) M
      = forLoop k (fun c A => A.set r c (f c)) M := by
  induction k with
  | zero => rfl
  | succ k ih =>
    rw [forLoop_succ, forLoop_succ, ih (by omega)]
    apply Mat.set_stored_eq_set
    · rw [forLoop_set_row_rows]
      exact hr
    · rw [forLoop_set_row_cols]
      omega

theorem convert_body_stored_eq (s : Operands α) (pi : Nat) (d : Mat α)
    (hp : s.p_index.getD pi 0 < d.rows) (hc : s.C_lo.cols ≤ d.cols) :
    convert_body_stored s pi d = convert_body s pi d :=
  forLoop_set_stored_row (s.p_index.getD pi 0) (written_value s pi) s.C_lo.cols d hp hc

/-- When every index of `p_index` is a row of `df_pii` and `df_pii` has at least
`nlo` columns, the writes through the buffer are the writes to the named
cells. -/
theorem convert_loop_stored_eq (s : Operands α) (hp : ∀ p ∈ s.p_index, p < s.df_pii.rows)
    (hc : s.C_lo.cols ≤ s.df_pii.cols) (k : Nat) (hk : k ≤ s.p_index.length) :
    convert_loop_stored s k = convert_loop s k := by
  induction k with
  | zero => rfl
  | succ k ih =>
    have hstep : convert_loop_stored s (k + 1)
        = convert_body_stored s k (convert_loop_stored s k) :=
      forLoop_succ k (convert_body_stored s) s.df_pii
    rw [hstep, ih (by omega), convert_loop_succ]
    apply convert_body_stored_eq
    · rw [convert_loop_rows, List.getD_eq_getElem s.p_index 0 (by omega)]
      exact hp _ (List.getElem_mem _)
    · rw [convert_loop_cols]
      exact hc

theorem convert_stored_eq (s : Operands α) (hp : ∀ p ∈ s.p_index, p < s.df_pii.rows)
    (hc : s.C_lo.cols ≤ s.df_pii.cols) :
    convert_df_pmn2pii_blockwise_stored s = convert_df_pmn2pii_blockwise s := by
  unfold convert_df_pmn2pii_blockwise_stored convert_df_pmn2pii_blockwise
  rw [convert_loop_stored_eq s hp hc s.p_index.length (le_refl _)]

end stored_writes

section frame_claim

theorem convert_frame_unbounded {α : Type} [LinearOrderedField α] (s : Operands α) :
    (∀ r, r ∉ s.p_index → ∀ c,
      (convert_df_pmn2pii_blockwise s).state.df_pii.coeff r c = s.df_pii.coeff r c) ∧
    (convert_df_pmn2pii_blockwise s).state.df_pii.rows = s.df_pii.rows ∧
    (convert_df_pmn2pii_blockwise s).state.df_pii.cols = s.df_pii.cols ∧
    (convert_df_pmn2pii_blockwise s).state.C_lo = s.C_lo ∧
    (convert_df_pmn2pii_blockwise s).state.df_pmn_block = s.df_pmn_block ∧
    (convert_df_pmn2pii_blockwise s).state.p_index = s.p_index := by
  unfold convert_df_pmn2pii_blockwise
  simp only
  split_ifs with h1 h2 h3
  · simp [Outcome.state]
  · simp [Outcome.state]
  · simp [Outcome.state]
  · refine ⟨?_, convert_loop_rows s _, convert_loop_cols s _, rfl, rfl, rfl⟩
    intro r hr c
    apply convert_loop_frame s s.p_index.length r c
    left
    intro pi hpi heq
    apply hr
    rw [← heq, List.getD_eq_getElem s.p_index 0 hpi]
    exact List.getElem_mem _

/-- C6, as amended: for every call of `convert_df_pmn2pii_blockwise` in which
every entry of `p_index` is a row of `df_pii` and `df_pii` has at least `nlo`
columns (so that every write of line 95 falls on the cell it names), whatever
way the call ends, every row of `df_pii` that does not occur in `p_index` has
all its entries unchanged, the shape of `df_pii` is unchanged, and `C_lo`,
`df_pmn_block` and `p_index` are unchanged; on such calls the writes through
the buffer and the writes to the named cells are the same function. -/
theorem convert_df_pmn2pii_blockwise_frame (s : Operands ℝ)
    (hp : ∀ p ∈ s.p_index, p < s.df_pii.rows) (hc : s.C_lo.cols ≤ s.df_pii.cols) :
    convert_df_pmn2pii_blockwise_stored s = convert_df_pmn2pii_blockwise s ∧
    (∀ r, r ∉ s.p_index → ∀ c,
      (convert_df_pmn2pii_blockwise_stored s).state.df_pii.coeff r c = s.df_pii.coeff r c) ∧
    (convert_df_pmn2pii_blockwise_stored s).state.df_pii.rows = s.df_pii.rows ∧
    (convert_df_pmn2pii_blockwise_stored s).state.df_pii.cols = s.df_pii.cols ∧
    (convert_df_pmn2pii_blockwise_stored s).state.C_lo = s.C_lo ∧
    (convert_df_pmn2pii_blockwise_stored s).state.df_pmn_block = s.df_pmn_block ∧
    (convert_df_pmn2pii_blockwise_stored s).state.p_index = s.p_index := by
  have heq := convert_stored_eq s hp hc
  rw [heq]
  exact ⟨rfl, convert_frame_unbounded s⟩

/-- Witness for C6: the index list `[2, 0]` against an output matrix of three
rows leaves row 1 as it was. -/
theorem convert_df_pmn2pii_blockwise_frame_witness :
    ((∀ p ∈ (frame_operands : Operands ℝ).p_index, p < (frame_operands : Operands ℝ).df_pii.rows)
      ∧ (frame_operands : Operands ℝ).C_lo.cols ≤ (frame_operands : Operands ℝ).df_pii.cols) ∧
    (1 ∉ (frame_operands : Operands ℝ).p_index ∧
      1 < (frame_operands : Operands ℝ).df_pii.rows) ∧
    ∀ c, (convert_df_pmn2pii_blockwise_stored (frame_operands : Operands ℝ)).state.df_pii.coeff
        1 c = (frame_operands : Operands ℝ).df_pii.coeff 1 c :=
  ⟨⟨by decide, by decide⟩, ⟨by decide, by decide⟩,
    (convert_df_pmn2pii_blockwise_frame frame_operands (by decide) (by decide)).2.1 1
      (by decide)⟩

/-- C6, counterexample to the claim as stated: the call with `p_index = [2]`
on a `2 x 2` output matrix passes the tests of lines 66-72 and returns; its
write `df_pii(2, 0) = 5` goes to offset 2 of the column-major buffer, which is
the cell `(0, 1)`, so row 0, which does not occur in `p_index`, is changed. -/
theorem convert_df_pmn2pii_blockwise_frame_counterexample :
    0 ∉ (out_of_range_operands : Operands ℝ).p_index ∧
    (out_of_range_operands : Operands ℝ).df_pii.coeff 0 1 = 0 ∧
    (∃ s', convert_df_pmn2pii_blockwise_stored (out_of_range_operands : Operands ℝ)
        = Outcome.returned s' ∧ s'.df_pii.coeff 0 1 = 5) ∧
    ¬ (∀ r, r ∉ (out_of_range_operands : Operands ℝ).p_index → ∀ c,
        (convert_df_pmn2pii_blockwise_stored
          (out_of_range_operands : Operands ℝ)).state.df_pii.coeff r c
          = (out_of_range_operands : Operands ℝ).df_pii.coeff r c) := by
  have hret : convert_df_pmn2pii_blockwise_stored (out_of_range_operands : Operands ℝ)
      = Outcome.returned { (out_of_range_operands : Operands ℝ) with
          df_pii := convert_loop_stored (out_of_range_operands : Operands ℝ) 1 } := by
    simp [convert_df_pmn2pii_blockwise_stored, out_of_range_operands, expected_cols, SIZE_MOD]
  have hv : written_value (out_of_range_operands : Operands ℝ) 0 0 = 5 := by
    rw [written_value_eq]
    simp [out_of_range_operands]
  have hcell : (convert_loop_stored (out_of_range_operands : Operands ℝ) 1).coeff 0 1 = 5 := by
    have hstep : convert_loop_stored (out_of_range_operands : Operands ℝ) 1
        = Mat.set_stored (out_of_range_operands : Operands ℝ).df_pii 2 0
            (written_value (out_of_range_operands : Operands ℝ) 0 0) := rfl
    rw [hstep, hv]
    simp [Mat.set_stored, Mat.set, out_of_range_operands, Mat.zero]
  refine ⟨by decide, rfl, ⟨_, hret, hcell⟩, ?_⟩
  intro hall
  have h := hall 0 (by decide) 1
  rw [hret] at h
  simp only [Outcome.state] at h
  rw [hcell] at h
  norm_num [out_of_range_operands, Mat.zero] at h

end frame_claim


section rounding_counterexamples

/-- C19, counterexample to the claim as stated: in double precision, with
`zeta = 0x1.87fe43f262e9dp-4`, `S_lo(1,0) = 1` and every entry of `kappa1` equal
to 7, the argument `f` is `>= 0`, the library values satisfy `erfc(f) == 1 -
erf(f)` (as the doubles compare) and `0 <= erf(f) <= 1`, and line 80 gives
`kappa2(1,0) = 0x1.bffffffffffffp+2 = 6.999999999999999`, outside the closed
interval between `kappa1(1,0) = 7` and `sqrt(|kappa1(1,1) * kappa1(0,0)|) = 7`. -/
theorem CurvatureV2_kappa_convex_blend_counterexample :
    0 ≤ binary64_arithmetic.mul zeta_sample ((Mat.const 2 2 (1 : ℚ)).coeff 1 0) ∧
    erfc_sample (binary64_arithmetic.mul zeta_sample ((Mat.const 2 2 (1 : ℚ)).coeff 1 0))
      = round_binary64
          (1 - erf_sample (binary64_arithmetic.mul zeta_sample ((Mat.const 2 2 (1 : ℚ)).coeff 1 0)))
      ∧
    0 ≤ erf_sample (binary64_arithmetic.mul zeta_sample ((Mat.const 2 2 (1 : ℚ)).coeff 1 0)) ∧
    erf_sample (binary64_arithmetic.mul zeta_sample ((Mat.const 2 2 (1 : ℚ)).coeff 1 0)) ≤ 1 ∧
    sqrt_sample (binary64_arithmetic.abs (binary64_arithmetic.mul
      ((Mat.const 2 2 (7 : ℚ)).coeff 1 1) ((Mat.const 2 2 (7 : ℚ)).coeff 0 0))) = 7 ∧
    (blend_kappa2_in binary64_arithmetic erf_sample erfc_sample sqrt_sample 2 zeta_sample
        (Mat.const 2 2 1) (Mat.const 2 2 7)).coeff 1 0
      = 7881299347898367 / 1125899906842624 ∧
    ¬ (min ((Mat.const 2 2 (7 : ℚ)).coeff 1 0) 7
          ≤ (blend_kappa2_in binary64_arithmetic erf_sample erfc_sample sqrt_sample 2
              zeta_sample (Mat.const 2 2 1) (Mat.const 2 2 7)).coeff 1 0
        ∧ (blend_kappa2_in binary64_arithmetic erf_sample erfc_sample sqrt_sample 2
              zeta_sample (Mat.const 2 2 1) (Mat.const 2 2 7)).coeff 1 0
          ≤ max ((Mat.const 2 2 (7 : ℚ)).coeff 1 0) 7) := by
  decide!

end rounding_counterexamples

end losc
